import Mathlib

/-!
# Verification of the spatial allocation engine of `app.py`

This file gives a shallow embedding, in Lean 4, of the spatial allocation
engine of the repository's `src/app.py`:

* `get_best_orientation`   (app.py lines 55-68)
* `split_free_rectangle`   (app.py lines 70-86)
* `prune_free_rectangles`  (app.py lines 88-101)
* `find_position_for_rect` (app.py lines 103-114)
* `place_items_optimally`  (app.py lines 149-203)
* `generate_rearrangements`(app.py lines 205-253)
* the retrieval-step computation of `search_item` (app.py lines 332-376)

All numeric quantities (dimensions, coordinates, priorities, areas) are
embedded as `Int`.  Stateful Python loops become explicit recursion or
folds; Python dicts keyed by strings become insertion-ordered association
lists with the same replace-on-duplicate semantics; fallible operations
return `Option`.  Display-only fields (the `itemName`/`name` lookups used
purely for human-readable output) are elided from the embedded records.
-/

namespace SpaceCadets

/-- A 2D axis-aligned rectangle `{x, y, w, h}` on a container's open face,
mirroring the free-rectangle dicts of `app.py`. -/
structure Rect where
  x : Int
  y : Int
  w : Int
  h : Int
deriving DecidableEq, Repr

/-- The fields of an item descriptor that the allocation engine reads.
`priority` is optional, mirroring `item.get("priority", 0)`. -/
structure Item where
  itemId : String
  width : Int
  height : Int
  depth : Int
  preferredZone : String
  priority : Option Int
deriving DecidableEq, Repr

/-- A container descriptor. -/
structure Container where
  containerId : String
  zone : String
  width : Int
  height : Int
  depth : Int
deriving DecidableEq, Repr

/-- A coordinate triple on the (width, depth, height) axes. -/
structure Coords where
  width : Int
  depth : Int
  height : Int
deriving DecidableEq, Repr

/-- A 3D box given by start and end coordinates. -/
structure Position where
  startCoordinates : Coords
  endCoordinates : Coords
deriving DecidableEq, Repr

/-- A placement record `{containerId, itemId, position}`. -/
structure Placement where
  containerId : String
  itemId : String
  position : Position
deriving DecidableEq, Repr

/-! ## Orientation selection (`get_best_orientation`, app.py lines 55-68) -/

/-- One orientation candidate dict `{"w": _, "h": _, "d": _, "area": _}`. -/
structure Orient where
  w : Int
  h : Int
  d : Int
  area : Int
deriving DecidableEq, Repr

/-- Python's `min(xs, key=...)` on a nonempty list: scan left to right and
replace the current best only on a strictly smaller key, so the first
minimal element wins ties. -/
def pyMinGo (key : α → Int) (b : α) : List α → α
  | [] => b
  | x :: l => pyMinGo key (if key x < key b then x else b) l

/-- The `orientations` list of app.py lines 59-63. -/
def orientCandidates (w h d : Int) : List Orient :=
  [⟨w, h, d, w * h⟩, ⟨w, d, h, w * d⟩, ⟨h, d, w, h * d⟩]

/-- `get_best_orientation(item, container_depth)` (app.py lines 55-68):
build the three orientation candidates, keep those whose depth fits, and
return the fitting candidate of minimal footprint area (first wins ties),
or `none` when no candidate fits. -/
def get_best_orientation (item : Item) (container_depth : Int) :
    Option (Int × Int × Int) :=
  let fitting := (orientCandidates item.width item.height item.depth).filter
    (fun o => decide (o.d ≤ container_depth))
  match fitting with
  | [] => none
  | f :: fs =>
    let best := pyMinGo Orient.area f fs
    some (best.w, best.h, best.d)

/-! ## Free-rectangle splitting (`split_free_rectangle`, app.py lines 70-86) -/

/-- `split_free_rectangle(fr, pr)` (app.py lines 70-86): if `fr` does not
strictly intersect the placed rectangle `pr` it is returned unchanged;
otherwise it is replaced by the residual strips on its left, right, top
and bottom sides, keeping only strips of positive width and height. -/
def split_free_rectangle (fr pr : Rect) : List Rect :=
  let ix := max fr.x pr.x
  let iy := max fr.y pr.y
  let i_right := min (fr.x + fr.w) (pr.x + pr.w)
  let i_top := min (fr.y + fr.h) (pr.y + pr.h)
  if i_right ≤ ix ∨ i_top ≤ iy then [fr]
  else
    let rects : List Rect :=
      (if fr.x < ix then [⟨fr.x, fr.y, ix - fr.x, fr.h⟩] else []) ++
      (if i_right < fr.x + fr.w then
        [⟨i_right, fr.y, fr.x + fr.w - i_right, fr.h⟩] else []) ++
      (if i_top < fr.y + fr.h then
        [⟨fr.x, i_top, fr.w, fr.y + fr.h - i_top⟩] else []) ++
      (if fr.y < iy then [⟨fr.x, fr.y, fr.w, iy - fr.y⟩] else [])
    rects.filter (fun r => decide (0 < r.w ∧ 0 < r.h))

/-! ## Pruning (`prune_free_rectangles`, app.py lines 88-101) -/

/-- `r1` is fully contained in `r2` (all four edges inside or equal),
the containment test of app.py lines 94-96. -/
def containedIn (r1 r2 : Rect) : Prop :=
  r2.x ≤ r1.x ∧ r2.y ≤ r1.y ∧
  r1.x + r1.w ≤ r2.x + r2.w ∧ r1.y + r1.h ≤ r2.y + r2.h

instance (r1 r2 : Rect) : Decidable (containedIn r1 r2) := by
  unfold containedIn; infer_instance

/-- Strict 2D overlap of two axis-aligned rectangles, the test of app.py
lines 356-357 (edge-touching does not count). -/
def rOverlap (a b : Rect) : Prop :=
  a.x < b.x + b.w ∧ b.x < a.x + a.w ∧ a.y < b.y + b.h ∧ b.y < a.y + a.h

instance (a b : Rect) : Decidable (rOverlap a b) := by
  unfold rOverlap; infer_instance

/-- The integer points covered by a rectangle (half-open box). -/
def memRect (p : Int × Int) (r : Rect) : Prop :=
  r.x ≤ p.1 ∧ p.1 < r.x + r.w ∧ r.y ≤ p.2 ∧ p.2 < r.y + r.h

instance (p : Int × Int) (r : Rect) : Decidable (memRect p r) := by
  unfold memRect; infer_instance

/-- Area of a rectangle. -/
def rectArea (r : Rect) : Int := r.w * r.h

/-- The 2D footprint of a placement in the (width, height) plane. -/
def footprintOf (p : Placement) : Rect :=
  ⟨p.position.startCoordinates.width, p.position.startCoordinates.height,
   p.position.endCoordinates.width - p.position.startCoordinates.width,
   p.position.endCoordinates.height - p.position.startCoordinates.height⟩

/-- `prune_free_rectangles(free_rects)` (app.py lines 88-101): keep exactly
the rectangles that are not contained in a rectangle at a different index. -/
def prune_free_rectangles (free_rects : List Rect) : List Rect :=
  (free_rects.enum.filter (fun ir =>
    ! free_rects.enum.any (fun jr =>
      decide (jr.1 ≠ ir.1 ∧ containedIn ir.2 jr.2)))).map (·.2)

/-! ## Best-fit position search (`find_position_for_rect`, app.py 103-114) -/

/-- `find_position_for_rect(free_rects, rw, rh)` (app.py lines 103-114):
scan the free rectangles, and among those that can contain a `rw × rh`
footprint keep the first one of strictly minimal leftover area, returning
`(best_rect, best_x, best_y, best_score)`, or `none` if none fits. -/
def findPosGo (rw rh : Int) (best : Option (Rect × Int × Int × Int)) :
    List Rect → Option (Rect × Int × Int × Int)
  | [] => best
  | fr :: rest =>
    if rw ≤ fr.w ∧ rh ≤ fr.h then
      let leftover := fr.w * fr.h - rw * rh
      match best with
      | none => findPosGo rw rh (some (fr, fr.x, fr.y, leftover)) rest
      | some (bfr, bx, bY, bscore) =>
        if leftover < bscore then
          findPosGo rw rh (some (fr, fr.x, fr.y, leftover)) rest
        else findPosGo rw rh (some (bfr, bx, bY, bscore)) rest
    else findPosGo rw rh best rest

/-- Entry point matching `find_position_for_rect`. -/
def find_position_for_rect (free_rects : List Rect) (rw rh : Int) :
    Option (Rect × Int × Int × Int) :=
  findPosGo rw rh none free_rects

/-- The free-rectangle update performed after each committed placement
(app.py lines 143-146 and again lines 191-194): split every free
rectangle against the placed rectangle, then prune. -/
def update_free_rects (free_rects : List Rect) (placed_rect : Rect) : List Rect :=
  prune_free_rectangles
    (free_rects.flatMap (fun r => split_free_rectangle r placed_rect))

/-! ## A single container face as a stateful packer (spec §4.2)

`pack_open_face_in_container` (app.py lines 116-147) and the inner loop of
`place_items_optimally` both drive the same face state: a free-rectangle
list that starts as the full face plus the footprints placed so far. -/

/-- The Face Packer state: current free rectangles and the footprints of
the placements committed so far. -/
structure PackState where
  free_rects : List Rect
  placed : List Rect
deriving DecidableEq, Repr

/-- Initial face state: one free rectangle spanning the full `W × H` face. -/
def initPackState (W H : Int) : PackState :=
  ⟨[⟨0, 0, W, H⟩], []⟩

/-- One `place(footprintWidth, footprintHeight)` operation: best-fit search
(app.py lines 103-114), anchor at the chosen rectangle's corner, then
split and prune (app.py lines 142-146). `none` means no fit. -/
def placeFootprint (s : PackState) (rw rh : Int) : Option PackState :=
  match find_position_for_rect s.free_rects rw rh with
  | none => none
  | some (_, px, py, _) =>
    let pr : Rect := ⟨px, py, rw, rh⟩
    some ⟨update_free_rects s.free_rects pr, s.placed ++ [pr]⟩

/-- Run a sequence of `place` requests; a request that does not fit leaves
the state unchanged. -/
def runPlaces (s : PackState) (reqs : List (Int × Int)) : PackState :=
  reqs.foldl (fun st q =>
    match placeFootprint st q.1 q.2 with
    | some st' => st'
    | none => st) s

/-! ## The zone allocator (`place_items_optimally`, app.py lines 149-203) -/

/-- `item.get("priority", 0)`: the sort key of app.py line 158. -/
def priorityOf (it : Item) : Int := it.priority.getD 0

/-- Stable descending insertion by priority: the inserted element goes
after every element of greater-or-equal priority, which is exactly the
order produced by Python's stable `sort(key=priority, reverse=True)`. -/
def insertByPriorityDesc (x : Item) : List Item → List Item
  | [] => [x]
  | y :: ys =>
    if priorityOf y < priorityOf x then x :: y :: ys
    else y :: insertByPriorityDesc x ys

/-- `items_list.sort(key=lambda x: x.get("priority", 0), reverse=True)`. -/
def sortItemsByPriorityDesc (l : List Item) : List Item :=
  l.foldl (fun acc x => insertByPriorityDesc x acc) []

/-- Stable ascending insertion by container id (Python string comparison is
lexicographic on code points, as is `String.lt`). -/
def insertById (c : Container) : List Container → List Container
  | [] => [c]
  | y :: ys =>
    if c.containerId < y.containerId then c :: y :: ys
    else y :: insertById c ys

/-- `c_list.sort(key=lambda c: c["containerId"])`. -/
def sortContainersById (l : List Container) : List Container :=
  l.foldl (fun acc c => insertById c acc) []

/-- `zone_to_items.setdefault(z, []).append(it)` (app.py lines 152-154):
group the items by preferred zone, keeping first-appearance zone order and
input order inside each zone. -/
def addToZone (z : String) (it : Item) :
    List (String × List Item) → List (String × List Item)
  | [] => [(z, [it])]
  | (z', l) :: rest =>
    if z' = z then (z', l ++ [it]) :: rest
    else (z', l) :: addToZone z it rest

/-- Build the `zone_to_items` dict of app.py lines 151-154. -/
def groupByZone (items : List Item) : List (String × List Item) :=
  items.foldl (fun acc it => addToZone it.preferredZone it acc) []

/-- One value of the `container_face_data` dict (app.py lines 161-168):
the container, its current free rectangles, and its placements so far. -/
structure FaceEntry where
  container : Container
  free_rects : List Rect
  placements : List Placement
deriving DecidableEq, Repr

/-- Fresh face data for one container (app.py lines 162-167). -/
def initFaceEntry (c : Container) : FaceEntry :=
  ⟨c, [⟨0, 0, c.width, c.height⟩], []⟩

/-- Python dict insertion keyed by `containerId`: replace the value of an
existing key in place, otherwise append. -/
def insertFaceEntry (e : FaceEntry) : List FaceEntry → List FaceEntry
  | [] => [e]
  | f :: fs =>
    if f.container.containerId = e.container.containerId then e :: fs
    else f :: insertFaceEntry e fs

/-- The `container_face_data` dict comprehension of app.py lines 161-168. -/
def buildFaceData (cs : List Container) : List FaceEntry :=
  cs.foldl (fun acc c => insertFaceEntry (initFaceEntry c) acc) []

/-- The placement document committed at app.py lines 180-187. -/
def mkPlacement (cid itemId : String) (px py rw rh rd : Int) : Placement :=
  ⟨cid, itemId, ⟨⟨px, 0, py⟩, ⟨px + rw, rd, py + rh⟩⟩⟩

/-- The container scan of app.py lines 172-196: try each face entry in
dict order; on the first container whose depth admits an orientation and
whose face has room, commit the placement (updating that entry) and stop.
`none` means every container rejected the item. -/
def tryPlaceItem (item : Item) : List FaceEntry → Option (List FaceEntry)
  | [] => none
  | e :: es =>
    match get_best_orientation item e.container.depth with
    | none => (tryPlaceItem item es).map (e :: ·)
    | some (rw, rh, rd) =>
      match find_position_for_rect e.free_rects rw rh with
      | none => (tryPlaceItem item es).map (e :: ·)
      | some (_, px, py, _) =>
        let pdoc := mkPlacement e.container.containerId item.itemId px py rw rh rd
        some ({ e with
                placements := e.placements ++ [pdoc],
                free_rects := update_free_rects e.free_rects ⟨px, py, rw, rh⟩ } :: es)

/-- One iteration of the per-zone item loop (app.py lines 170-198): try
to place the item; on failure append it to the `remaining` list. -/
def zoneItemStep (st : List FaceEntry × List Item) (it : Item) :
    List FaceEntry × List Item :=
  match tryPlaceItem it st.1 with
  | some entries' => (entries', st.2)
  | none => (st.1, st.2 ++ [it])

/-- The per-zone item loop of app.py lines 169-198: place each item in
priority order, collecting the items no container accepted. -/
def placeZoneItems (entries : List FaceEntry) (items : List Item) :
    List FaceEntry × List Item :=
  items.foldl zoneItemStep (entries, [])

/-- The containers of one zone, sorted by id (app.py lines 159-160). -/
def zoneContainers (containers : List Container) (zone : String) :
    List Container :=
  sortContainersById (containers.filter (fun c => decide (c.zone = zone)))

/-- One iteration of the zone loop of app.py lines 157-201: run the
zone's items over its container faces and extend the global placement and
unplaced lists. -/
def zoneStep (containers : List Container)
    (acc : List Placement × List Item) (zi : String × List Item) :
    List Placement × List Item :=
  (acc.1 ++ (placeZoneItems (buildFaceData (zoneContainers containers zi.1))
      (sortItemsByPriorityDesc zi.2)).1.flatMap (·.placements),
   acc.2 ++ (placeZoneItems (buildFaceData (zoneContainers containers zi.1))
      (sortItemsByPriorityDesc zi.2)).2)

/-- `place_items_optimally(data)` (app.py lines 149-203): group items by
preferred zone, sort each zone's items by priority descending (stable) and
its containers by id, then first-fit each item across the zone's container
faces.  The source function returns `(all_open_face_placements, [])`,
discarding the computed `unplaced_global` list; the embedding returns the
placements together with that internally computed unplaced list. -/
def place_items_optimally (items : List Item) (containers : List Container) :
    List Placement × List Item :=
  (groupByZone items).foldl (zoneStep containers) ([], [])

/-! ## Rearrangement differ (`generate_rearrangements`, app.py lines 205-253) -/

/-- A rearrangement step `{step, action, itemId, fromContainer,
fromPosition, toContainer, toPosition}`. -/
structure RStep where
  step : Nat
  action : String
  itemId : String
  fromContainer : String
  fromPosition : Position
  toContainer : String
  toPosition : Position
deriving DecidableEq, Repr

/-- The zero-box sentinel used when a step has no source or destination. -/
def zeroPosition : Position := ⟨⟨0, 0, 0⟩, ⟨0, 0, 0⟩⟩

/-- Python dict insertion keyed by item id: `{p["itemId"]: p for p in ps}`
replaces the value of an existing key in place and appends new keys. -/
def dictInsert (d : List (String × Placement)) (p : Placement) :
    List (String × Placement) :=
  match d with
  | [] => [(p.itemId, p)]
  | (k, v) :: rest =>
    if k = p.itemId then (k, p) :: rest else (k, v) :: dictInsert rest p

/-- `old_dict = {p["itemId"]: p for p in old_placements}` (app.py 207-208). -/
def dictOf (ps : List Placement) : List (String × Placement) :=
  ps.foldl dictInsert []

/-- Dict lookup by key. -/
def dictLookup (d : List (String × Placement)) (k : String) : Option Placement :=
  (d.find? (fun e => decide (e.1 = k))).map (·.2)

/-- Pass 1 of `generate_rearrangements` (app.py lines 210-237): walk the
new snapshot's dict entries with the running step counter, emitting a
`move` for a changed item and a `place` for a new item.  Returns the
emitted steps and the counter value after the pass. -/
def rearrangePass1 (old_dict : List (String × Placement)) :
    List (String × Placement) → Nat → List RStep × Nat
  | [], step => ([], step)
  | (itemId, newp) :: rest, step =>
    match dictLookup old_dict itemId with
    | some oldp =>
      if oldp.containerId ≠ newp.containerId ∨ oldp.position ≠ newp.position then
        let r := rearrangePass1 old_dict rest (step + 1)
        (⟨step, "move", itemId, oldp.containerId, oldp.position,
          newp.containerId, newp.position⟩ :: r.1, r.2)
      else rearrangePass1 old_dict rest step
    | none =>
      let r := rearrangePass1 old_dict rest (step + 1)
      (⟨step, "place", itemId, "NONE", zeroPosition,
        newp.containerId, newp.position⟩ :: r.1, r.2)

/-- Pass 2 of `generate_rearrangements` (app.py lines 238-252): emit a
`remove` for every old item absent from the new snapshot. -/
def rearrangePass2 (new_dict : List (String × Placement)) :
    List (String × Placement) → Nat → List RStep
  | [], _ => []
  | (itemId, oldp) :: rest, step =>
    if dictLookup new_dict itemId = none then
      ⟨step, "remove", itemId, oldp.containerId, oldp.position,
        "NONE", zeroPosition⟩ :: rearrangePass2 new_dict rest (step + 1)
    else rearrangePass2 new_dict rest step

/-- `generate_rearrangements(old_placements, new_placements)`
(app.py lines 205-253): pass 1 over the new snapshot's dict starting at
step 1, then pass 2 over the old snapshot's dict continuing the counter. -/
def generate_rearrangements (old_placements new_placements : List Placement) :
    List RStep :=
  (rearrangePass1 (dictOf old_placements) (dictOf new_placements) 1).1 ++
    rearrangePass2 (dictOf new_placements) (dictOf old_placements)
      (rearrangePass1 (dictOf old_placements) (dictOf new_placements) 1).2

/-! ## Retrieval planner (`search_item` steps, app.py lines 332-376)

Only the retrieval-step computation is embedded; the HTTP plumbing, the
JSON file access and the `itemName` display-field lookups around it are
elided. -/

/-- A retrieval step `{step, action, placeBack, itemId}`. -/
structure RetStep where
  step : Nat
  action : String
  placeBack : Bool
  itemId : String
deriving DecidableEq, Repr

/-- The blocking-item scan of app.py lines 348-358: every other placement
in the target's container whose box starts at depth 0 and whose footprint
strictly overlaps the target's footprint in the (width, height) plane. -/
def blockingItems (target : Placement) (placements : List Placement) :
    List Placement :=
  let t_x := target.position.startCoordinates.width
  let t_y := target.position.startCoordinates.height
  let t_w := target.position.endCoordinates.width - t_x
  let t_h := target.position.endCoordinates.height - t_y
  placements.filter (fun p =>
    decide (p.containerId = target.containerId ∧ p.itemId ≠ target.itemId ∧
      p.position.startCoordinates.depth = 0 ∧
      (p.position.startCoordinates.width < t_x + t_w ∧
       t_x < p.position.startCoordinates.width +
         (p.position.endCoordinates.width - p.position.startCoordinates.width) ∧
       p.position.startCoordinates.height < t_y + t_h ∧
       t_y < p.position.startCoordinates.height +
         (p.position.endCoordinates.height - p.position.startCoordinates.height))))

/-- The `remove` steps emitted for the blocking items, numbered from the
running counter (app.py lines 359-369). -/
def removeSteps (step : Nat) : List Placement → List RetStep
  | [] => []
  | p :: rest => ⟨step, "remove", true, p.itemId⟩ :: removeSteps (step + 1) rest

/-- The retrieval-step computation of `search_item` (app.py lines 332-376):
a target at depth 0 yields the single step `{step: 0, action: "retrieve"}`;
otherwise one `remove` per blocking item, numbered from 1, followed by the
final `retrieve`. -/
def retrieval_steps (target : Placement) (placements : List Placement) :
    List RetStep :=
  if target.position.startCoordinates.depth = 0 then
    [⟨0, "retrieve", false, target.itemId⟩]
  else
    removeSteps 1 (blockingItems target placements) ++
      [⟨1 + (blockingItems target placements).length, "retrieve", false,
        target.itemId⟩]

/-- The footprint/depth triples `(footprintWidth, footprintHeight, depth)`
exactly as the spec's §3 lists the three candidates. -/
def orientationCandidatesSpec (w h d : Int) : List (Int × Int × Int) :=
  [(w, h, d), (w, d, h), (h, d, w)]

/-- `selectOrientation` as the spec's §4.1 words it: discard candidates
whose depth exceeds `containerDepth`, then return the first remaining
candidate whose footprint area is minimal (construction order breaks
ties); `none` when no candidate remains. -/
def selectOrientationSpec (w h d D : Int) : Option (Int × Int × Int) :=
  let feasible := (orientationCandidatesSpec w h d).filter
    (fun c => decide (c.2.2 ≤ D))
  feasible.find? (fun c => decide (∀ c2 ∈ feasible, c.1 * c.2.1 ≤ c2.1 * c2.2.1))

/-- View an orientation dict as the spec's `(fw, fh, depth)` triple. -/
def orientTriple (o : Orient) : Int × Int × Int := (o.w, o.h, o.d)

/-- The `(best_rect, best_x, best_y, best_score)` tuple the search returns
for a chosen rectangle: anchored at the rectangle's corner, scored by the
leftover area. -/
def posResult (rw rh : Int) (fr : Rect) : Rect × Int × Int × Int :=
  (fr, fr.x, fr.y, fr.w * fr.h - rw * rh)

/-- The best-fit search as the spec's §4.2 words it: among the free
rectangles that can contain the footprint, the first one of minimal
leftover area `rect.w * rect.h - rw * rh` in scan order. -/
def bestFitRectSpec (free_rects : List Rect) (rw rh : Int) : Option Rect :=
  let fitting := free_rects.filter (fun fr => decide (rw ≤ fr.w ∧ rh ≤ fr.h))
  fitting.find? (fun fr => decide (∀ g ∈ fitting,
    fr.w * fr.h - rw * rh ≤ g.w * g.h - rw * rh))

/-- The state invariant of a container face under `place` operations:
free rectangles stay inside the face, keep positive extents, form an
antichain under containment, and never overlap a placed footprint;
placed footprints stay inside the face and are pairwise non-overlapping;
and together the free rectangles and the footprints cover every point of
the face. -/
structure PackInv (W H : Int) (s : PackState) : Prop where
  free_inface : ∀ r ∈ s.free_rects,
    0 ≤ r.x ∧ 0 ≤ r.y ∧ r.x + r.w ≤ W ∧ r.y + r.h ≤ H
  free_pos : ∀ r ∈ s.free_rects, 0 < r.w ∧ 0 < r.h
  free_antichain : s.free_rects.Pairwise
    (fun a b => ¬ containedIn a b ∧ ¬ containedIn b a)
  free_placed : ∀ r ∈ s.free_rects, ∀ p ∈ s.placed, ¬ rOverlap r p
  placed_inface : ∀ p ∈ s.placed,
    0 ≤ p.x ∧ 0 ≤ p.y ∧ p.x + p.w ≤ W ∧ p.y + p.h ≤ H
  placed_pos : ∀ p ∈ s.placed, 0 < p.w ∧ 0 < p.h
  placed_disjoint : s.placed.Pairwise (fun a b => ¬ rOverlap a b)
  cover : ∀ q : Int × Int, 0 ≤ q.1 → q.1 < W → 0 ≤ q.2 → q.2 < H →
    (∃ p ∈ s.placed, memRect q p) ∨ (∃ r ∈ s.free_rects, memRect q r)

/-- Item A of the spec's example (§8). -/
def exItemA : Item := ⟨"A", 30, 40, 20, "Z", some 5⟩

/-- Item B of the spec's example (§8). -/
def exItemB : Item := ⟨"B", 50, 50, 10, "Z", some 3⟩

/-- Container C of the spec's example (§8). -/
def exContainerC : Container := ⟨"C", "Z", 100, 100, 50⟩

/-- The blocking placements as the claim words them: every other
same-container placement with depth-start 0 whose footprint strictly
overlaps the target's footprint
(`a.x < b.x+b.w ∧ a.x+a.w > b.x ∧ a.y < b.y+b.h ∧ a.y+a.h > b.y`). -/
def blockersSpec (target : Placement) (placements : List Placement) :
    List Placement :=
  placements.filter (fun p => decide (
    p.containerId = target.containerId ∧ p.itemId ≠ target.itemId ∧
    p.position.startCoordinates.depth = 0 ∧
    ((footprintOf p).x < (footprintOf target).x + (footprintOf target).w ∧
     (footprintOf target).x < (footprintOf p).x + (footprintOf p).w ∧
     (footprintOf p).y < (footprintOf target).y + (footprintOf target).h ∧
     (footprintOf target).y < (footprintOf p).y + (footprintOf p).h)))

/-- Pass 1 as the claim words it: for each item of the new snapshot in
order, a `place` step if it is absent from the old snapshot, a `move`
step if present with a different container or box, nothing if identical.
The `step` fields are placeholders, numbered afterwards. -/
def specPass1 (old new : List Placement) : List RStep :=
  new.filterMap (fun np =>
    match old.find? (fun op => decide (op.itemId = np.itemId)) with
    | none => some ⟨0, "place", np.itemId, "NONE", zeroPosition,
        np.containerId, np.position⟩
    | some op =>
      if op.containerId ≠ np.containerId ∨ op.position ≠ np.position then
        some ⟨0, "move", np.itemId, op.containerId, op.position,
          np.containerId, np.position⟩
      else none)

/-- Pass 2 as the claim words it: one `remove` step per old item absent
from the new snapshot, in the old snapshot's order. -/
def specPass2 (old new : List Placement) : List RStep :=
  old.filterMap (fun op =>
    if (new.find? (fun np => decide (np.itemId = op.itemId))).isSome then none
    else some ⟨0, "remove", op.itemId, op.containerId, op.position,
      "NONE", zeroPosition⟩)

/-- Number a list of steps sequentially starting at `c`. -/
def numberFrom (c : Nat) : List RStep → List RStep
  | [] => []
  | a :: l => ⟨c, a.action, a.itemId, a.fromContainer, a.fromPosition,
      a.toContainer, a.toPosition⟩ :: numberFrom (c + 1) l

/-- The differ as the claim words it: both passes concatenated, numbered
sequentially starting at 1. -/
def rearrangementsSpec (old new : List Placement) : List RStep :=
  numberFrom 1 (specPass1 old new ++ specPass2 old new)

/-- The in-bounds conditions the claim states for a placement against its
container. -/
def placementBounds (p : Placement) (c : Container) : Prop :=
  0 ≤ p.position.startCoordinates.width ∧
  p.position.endCoordinates.width ≤ c.width ∧
  0 ≤ p.position.startCoordinates.height ∧
  p.position.endCoordinates.height ≤ c.height ∧
  p.position.endCoordinates.depth ≤ c.depth

/-- The per-container-face invariant carried through the allocator, over
a container `cont`, its free rectangles `frs` and its placements `ps`:
free rectangles stay inside the face and (once anything is placed) have
positive extents and never overlap a placed footprint; placed footprints
have positive extents, are pairwise non-overlapping, carry the
container's id, and respect the container's bounds and depth. -/
structure FaceGood (cont : Container) (frs : List Rect)
    (ps : List Placement) : Prop where
  free_inface : ∀ r ∈ frs,
    0 ≤ r.x ∧ 0 ≤ r.y ∧ r.x + r.w ≤ cont.width ∧ r.y + r.h ≤ cont.height
  free_shape : (∀ r ∈ frs, 0 < r.w ∧ 0 < r.h) ∨
    (ps = [] ∧ frs = [⟨0, 0, cont.width, cont.height⟩])
  free_placed : ∀ r ∈ frs, ∀ p ∈ ps, ¬ rOverlap r (footprintOf p)
  placed_pos : ∀ p ∈ ps, 0 < (footprintOf p).w ∧ 0 < (footprintOf p).h
  placed_pair : ps.Pairwise
    (fun p q => ¬ rOverlap (footprintOf p) (footprintOf q))
  placed_ok : ∀ p ∈ ps,
    p.containerId = cont.containerId ∧ placementBounds p cont

/-- The invariant attached to a face entry. -/
abbrev EntryInv (e : FaceEntry) : Prop :=
  FaceGood e.container e.free_rects e.placements

/-- Replace an item's (possibly missing) priority by the value the sort
key `item.get("priority", 0)` reads: a missing priority becomes `some 0`,
a present priority is unchanged. -/
def normalizePriority (it : Item) : Item :=
  { it with priority := some (it.priority.getD 0) }

/-! ## Lemmas about the Python `min` scan -/

theorem pyMinGo_mem (key : α → Int) :
    ∀ (l : List α) (b : α), pyMinGo key b l ∈ b :: l := by
  intro l
  induction l with
  | nil => intro b; simp [pyMinGo]
  | cons x l ih =>
    intro b
    rw [pyMinGo]
    have h := ih (if key x < key b then x else b)
    rcases List.mem_cons.mp h with h' | h'
    · rw [h']
      split
      · exact List.mem_cons_of_mem _ (List.mem_cons_self _ _)
      · exact List.mem_cons_self _ _
    · exact List.mem_cons_of_mem _ (List.mem_cons_of_mem _ h')

theorem pyMinGo_le (key : α → Int) :
    ∀ (l : List α) (b : α), ∀ c ∈ b :: l, key (pyMinGo key b l) ≤ key c := by
  intro l
  induction l with
  | nil =>
    intro b c hc
    rcases List.mem_cons.mp hc with rfl | hc
    · simp [pyMinGo]
    · simp at hc
  | cons x l ih =>
    intro b c hc
    rw [pyMinGo]
    by_cases hxb : key x < key b
    · rw [if_pos hxb]
      have hx := ih x x (List.mem_cons_self x l)
      rcases List.mem_cons.mp hc with rfl | hc
      · omega
      · rcases List.mem_cons.mp hc with rfl | hc
        · exact hx
        · exact ih x c (List.mem_cons_of_mem x hc)
    · rw [if_neg hxb]
      have hb := ih b b (List.mem_cons_self b l)
      rcases List.mem_cons.mp hc with rfl | hc
      · exact hb
      · rcases List.mem_cons.mp hc with rfl | hc
        · omega
        · exact ih b c (List.mem_cons_of_mem b hc)

theorem pyMinGo_decomp (key : α → Int) :
    ∀ (l : List α) (b : α), ∃ l1 l2, b :: l = l1 ++ pyMinGo key b l :: l2 ∧
      ∀ a ∈ l1, key (pyMinGo key b l) < key a := by
  intro l
  induction l with
  | nil => intro b; exact ⟨[], [], by simp [pyMinGo], by simp⟩
  | cons x l ih =>
    intro b
    rw [pyMinGo]
    by_cases hxb : key x < key b
    · rw [if_pos hxb]
      obtain ⟨l1, l2, hdec, hlt⟩ := ih x
      refine ⟨b :: l1, l2, ?_, ?_⟩
      · rw [List.cons_append, ← hdec]
      · intro a ha
        rcases List.mem_cons.mp ha with rfl | ha'
        · have := pyMinGo_le key l x x (List.mem_cons_self x l)
          omega
        · exact hlt a ha'
    · rw [if_neg hxb]
      obtain ⟨l1, l2, hdec, hlt⟩ := ih b
      cases l1 with
      | nil =>
        simp only [List.nil_append] at hdec
        refine ⟨[], x :: l2, ?_, by simp⟩
        rw [List.nil_append]
        rw [List.cons.injEq] at hdec
        rw [← hdec.1, hdec.2]
      | cons b0 t =>
        rw [List.cons_append, List.cons.injEq] at hdec
        refine ⟨b :: x :: t, l2, ?_, ?_⟩
        · rw [List.cons_append, List.cons_append, ← hdec.2]
        · intro a ha
          have hb0 : key (pyMinGo key b l) < key b := by
            have := hlt b0 (List.mem_cons_self b0 t)
            rw [← hdec.1] at this
            exact this
          rcases List.mem_cons.mp ha with rfl | ha'
          · exact hb0
          · rcases List.mem_cons.mp ha' with rfl | ha''
            · omega
            · exact hlt a (List.mem_cons_of_mem b0 ha'')

theorem pyMinGo_find? (key : α → Int) (l : List α) (b : α) :
    (b :: l).find? (fun a => decide (∀ c ∈ b :: l, key a ≤ key c))
      = some (pyMinGo key b l) := by
  rw [List.find?_eq_some]
  constructor
  · simp only [decide_eq_true_eq]
    exact pyMinGo_le key l b
  · obtain ⟨l1, l2, hdec, hlt⟩ := pyMinGo_decomp key l b
    refine ⟨l1, l2, hdec, ?_⟩
    intro a ha
    simp only [Bool.not_eq_eq_eq_not, Bool.not_true, decide_eq_false_iff_not]
    intro hall
    have h1 : key a ≤ key (pyMinGo key b l) := by
      refine hall _ ?_
      rw [hdec]
      exact List.mem_append.mpr (Or.inr (List.mem_cons_self _ _))
    have h2 := hlt a ha
    omega

/-! ## Claim C3: orientation selection against the spec's description -/

/-- Mapping a list commutes with the `min` scan when the keys agree on the
scanned elements. -/
theorem pyMinGo_map (f : α → β) (key : α → Int) (key' : β → Int) :
    ∀ (l : List α) (b : α), (∀ x ∈ b :: l, key' (f x) = key x) →
      pyMinGo key' (f b) (l.map f) = f (pyMinGo key b l) := by
  intro l
  induction l with
  | nil => intro b _; simp [pyMinGo]
  | cons x l ih =>
    intro b hkey
    rw [List.map_cons, pyMinGo, pyMinGo]
    rw [hkey x (List.mem_cons_of_mem b (List.mem_cons_self x l)),
      hkey b (List.mem_cons_self b (x :: l))]
    by_cases hxb : key x < key b
    · rw [if_pos hxb, if_pos hxb]
      exact ih x (fun c hc => by
        rcases List.mem_cons.mp hc with rfl | hc
        · exact hkey c (List.mem_cons_of_mem b (List.mem_cons_self c l))
        · exact hkey c (List.mem_cons_of_mem b (List.mem_cons_of_mem x hc)))
    · rw [if_neg hxb, if_neg hxb]
      exact ih b (fun c hc => by
        rcases List.mem_cons.mp hc with rfl | hc
        · exact hkey c (List.mem_cons_self c (x :: l))
        · exact hkey c (List.mem_cons_of_mem b (List.mem_cons_of_mem x hc)))

/-- The `area` field of every constructed candidate is its footprint
product. -/
theorem orientCandidates_area (w h d : Int) :
    ∀ o ∈ orientCandidates w h d, o.area = o.w * o.h := by
  intro o ho
  simp only [orientCandidates, List.mem_cons, List.not_mem_nil, or_false] at ho
  rcases ho with rfl | rfl | rfl <;> rfl

/-- The embedded `get_best_orientation` coincides with the spec's
`selectOrientation` on all inputs. -/
theorem get_best_orientation_eq_spec (it : Item) (D : Int) :
    get_best_orientation it D
      = selectOrientationSpec it.width it.height it.depth D := by
  unfold get_best_orientation selectOrientationSpec
  rw [show orientationCandidatesSpec it.width it.height it.depth
      = (orientCandidates it.width it.height it.depth).map orientTriple from rfl]
  rw [List.filter_map]
  rw [show ((fun c : Int × Int × Int => decide (c.2.2 ≤ D)) ∘ orientTriple)
      = fun o : Orient => decide (o.d ≤ D) from rfl]
  cases hft : (orientCandidates it.width it.height it.depth).filter
      (fun o => decide (o.d ≤ D)) with
  | nil => simp
  | cons f fs =>
    simp only [List.map_cons]
    have hmem : ∀ x ∈ f :: fs, x ∈ orientCandidates it.width it.height it.depth := by
      intro x hx
      have hx2 : x ∈ (orientCandidates it.width it.height it.depth).filter
          (fun o => decide (o.d ≤ D)) := by rw [hft]; exact hx
      exact List.mem_of_mem_filter hx2
    have hkey : ∀ x ∈ f :: fs,
        (fun c : Int × Int × Int => c.1 * c.2.1) (orientTriple x) = x.area := by
      intro x hx
      have := orientCandidates_area it.width it.height it.depth x (hmem x hx)
      simp only [orientTriple]
      omega
    have hfind := pyMinGo_find? (fun c : Int × Int × Int => c.1 * c.2.1)
      (fs.map orientTriple) (orientTriple f)
    have hmap := pyMinGo_map orientTriple Orient.area
      (fun c : Int × Int × Int => c.1 * c.2.1) fs f hkey
    rw [hfind, hmap]
    rfl

/-- `get_best_orientation` signals infeasibility exactly when all three
candidate depths (the item's depth, height and width) exceed the
container depth. -/
theorem get_best_orientation_none_iff (it : Item) (D : Int) :
    get_best_orientation it D = none
      ↔ D < it.depth ∧ D < it.height ∧ D < it.width := by
  unfold get_best_orientation
  cases hft : (orientCandidates it.width it.height it.depth).filter
      (fun o => decide (o.d ≤ D)) with
  | nil =>
    rw [List.filter_eq_nil_iff] at hft
    refine iff_of_true rfl ?_
    refine ⟨?_, ?_, ?_⟩
    · have := hft ⟨it.width, it.height, it.depth, it.width * it.height⟩
        (by simp [orientCandidates])
      simp only [decide_eq_true_eq] at this
      omega
    · have := hft ⟨it.width, it.depth, it.height, it.width * it.depth⟩
        (by simp [orientCandidates])
      simp only [decide_eq_true_eq] at this
      omega
    · have := hft ⟨it.height, it.depth, it.width, it.height * it.depth⟩
        (by simp [orientCandidates])
      simp only [decide_eq_true_eq] at this
      omega
  | cons f fs =>
    refine iff_of_false (by simp) ?_
    rintro ⟨h1, h2, h3⟩
    have hf : f ∈ (orientCandidates it.width it.height it.depth).filter
        (fun o => decide (o.d ≤ D)) := by
      rw [hft]; exact List.mem_cons_self _ _
    have hfd := List.of_mem_filter hf
    have hfc := List.mem_of_mem_filter hf
    simp only [decide_eq_true_eq] at hfd
    simp only [orientCandidates, List.mem_cons, List.not_mem_nil, or_false] at hfc
    rcases hfc with rfl | rfl | rfl <;> dsimp only at hfd <;> omega

/-- C3: for every item and container depth, the orientation selector
considers exactly the three candidates `(w,h,d)`, `(w,d,h)`, `(h,d,w)`,
discards those whose depth exceeds the container depth, returns the
remaining candidate of minimal footprint area with the first-listed
candidate winning ties, and returns `none` exactly when all three
candidate depths exceed the container depth. -/
theorem claim_C3_orientation_selection (it : Item) (D : Int) :
    get_best_orientation it D
        = selectOrientationSpec it.width it.height it.depth D ∧
    (get_best_orientation it D = none
        ↔ D < it.depth ∧ D < it.height ∧ D < it.width) :=
  ⟨get_best_orientation_eq_spec it D, get_best_orientation_none_iff it D⟩

/-! ## Claim C4: best-fit search against the spec's description -/

theorem findPosGo_some (rw rh : Int) :
    ∀ (l : List Rect) (fr0 : Rect),
      findPosGo rw rh (some (posResult rw rh fr0)) l
        = some (posResult rw rh (pyMinGo (fun fr => fr.w * fr.h - rw * rh) fr0
            (l.filter (fun fr => decide (rw ≤ fr.w ∧ rh ≤ fr.h))))) := by
  intro l
  induction l with
  | nil => intro fr0; simp [findPosGo, pyMinGo]
  | cons fr rest ih =>
    intro fr0
    simp only [findPosGo, posResult]
    by_cases hfit : rw ≤ fr.w ∧ rh ≤ fr.h
    · rw [if_pos hfit, List.filter_cons_of_pos (by simpa using hfit)]
      rw [pyMinGo]
      by_cases hlt : fr.w * fr.h - rw * rh < fr0.w * fr0.h - rw * rh
      · rw [if_pos hlt, if_pos hlt]
        exact ih fr
      · rw [if_neg hlt, if_neg hlt]
        exact ih fr0
    · rw [if_neg hfit, List.filter_cons_of_neg (by simpa using hfit)]
      exact ih fr0

theorem findPosGo_none (rw rh : Int) :
    ∀ (l : List Rect),
      findPosGo rw rh none l
        = match l.filter (fun fr => decide (rw ≤ fr.w ∧ rh ≤ fr.h)) with
          | [] => none
          | g :: gs =>
            some (posResult rw rh (pyMinGo (fun fr => fr.w * fr.h - rw * rh) g gs)) := by
  intro l
  induction l with
  | nil => rfl
  | cons fr rest ih =>
    simp only [findPosGo]
    by_cases hfit : rw ≤ fr.w ∧ rh ≤ fr.h
    · rw [if_pos hfit, List.filter_cons_of_pos (by simpa using hfit)]
      exact findPosGo_some rw rh rest fr
    · rw [if_neg hfit, List.filter_cons_of_neg (by simpa using hfit)]
      exact ih

/-- Characterization of `find_position_for_rect` through the filtered
fitting list. -/
theorem find_position_char (free_rects : List Rect) (rw rh : Int) :
    find_position_for_rect free_rects rw rh
      = match free_rects.filter (fun fr => decide (rw ≤ fr.w ∧ rh ≤ fr.h)) with
        | [] => none
        | g :: gs =>
          some (posResult rw rh (pyMinGo (fun fr => fr.w * fr.h - rw * rh) g gs)) :=
  findPosGo_none rw rh free_rects

/-- When the search succeeds, the returned rectangle is a fitting member
of the scanned list and the anchor is its corner. -/
theorem find_position_some (frs : List Rect) (rw rh px py s : Int) (fr : Rect)
    (h : find_position_for_rect frs rw rh = some (fr, px, py, s)) :
    fr ∈ frs ∧ rw ≤ fr.w ∧ rh ≤ fr.h ∧ px = fr.x ∧ py = fr.y := by
  rw [find_position_char] at h
  cases hft : frs.filter (fun fr => decide (rw ≤ fr.w ∧ rh ≤ fr.h)) with
  | nil => rw [hft] at h; exact absurd h (by simp)
  | cons g gs =>
    rw [hft] at h
    simp only [posResult, Option.some.injEq, Prod.mk.injEq] at h
    obtain ⟨rfl, hx, hy, _⟩ := h
    have hmem := pyMinGo_mem (fun fr : Rect => fr.w * fr.h - rw * rh) gs g
    rw [← hft] at hmem
    have hfits : rw ≤ (pyMinGo (fun fr : Rect => fr.w * fr.h - rw * rh) g gs).w ∧
        rh ≤ (pyMinGo (fun fr : Rect => fr.w * fr.h - rw * rh) g gs).h := by
      simpa using (List.of_mem_filter hmem : _)
    exact ⟨List.mem_of_mem_filter hmem, hfits.1, hfits.2, hx.symm, hy.symm⟩

/-- C4: the best-fit search selects, among the free rectangles that can
contain the footprint, the first one of minimal leftover area, anchors
the footprint at that rectangle's `(x, y)` corner, and returns `none`
exactly when no free rectangle can contain the footprint. -/
theorem claim_C4_best_fit_search (free_rects : List Rect) (rw rh : Int) :
    find_position_for_rect free_rects rw rh
        = (bestFitRectSpec free_rects rw rh).map (posResult rw rh) ∧
    (find_position_for_rect free_rects rw rh = none
        ↔ ∀ fr ∈ free_rects, ¬(rw ≤ fr.w ∧ rh ≤ fr.h)) := by
  constructor
  · rw [find_position_char]
    unfold bestFitRectSpec
    cases hft : free_rects.filter (fun fr => decide (rw ≤ fr.w ∧ rh ≤ fr.h)) with
    | nil => rfl
    | cons g gs =>
      have hfind := pyMinGo_find? (fun fr : Rect => fr.w * fr.h - rw * rh) gs g
      beta_reduce at hfind
      rw [hfind]
      rfl
  · rw [find_position_char]
    cases hft : free_rects.filter (fun fr => decide (rw ≤ fr.w ∧ rh ≤ fr.h)) with
    | nil =>
      rw [List.filter_eq_nil_iff] at hft
      refine iff_of_true rfl ?_
      intro fr hfr
      have := hft fr hfr
      simpa using this
    | cons g gs =>
      refine iff_of_false (by simp) ?_
      intro hall
      have hg : g ∈ free_rects.filter (fun fr => decide (rw ≤ fr.w ∧ rh ≤ fr.h)) := by
        rw [hft]; exact List.mem_cons_self _ _
      exact hall g (List.mem_of_mem_filter hg)
        (by simpa using (List.of_mem_filter hg : _))

/-! ## Lemmas about pruning -/

theorem enumFrom_pairwise_lt (l : List α) :
    ∀ n, (List.enumFrom n l).Pairwise (fun p q => p.1 < q.1) := by
  induction l with
  | nil => intro n; simp
  | cons a l ih =>
    intro n
    rw [List.enumFrom_cons]
    refine List.Pairwise.cons ?_ (ih (n + 1))
    intro q hq
    have := List.mem_enumFrom hq
    omega

theorem enum_pairwise_lt (l : List α) :
    l.enum.Pairwise (fun p q => p.1 < q.1) :=
  enumFrom_pairwise_lt l 0

/-- Everything the prune keeps was already a free rectangle. -/
theorem prune_subset {frs : List Rect} {r : Rect}
    (hr : r ∈ prune_free_rectangles frs) : r ∈ frs := by
  unfold prune_free_rectangles at hr
  obtain ⟨ir, hir, rfl⟩ := List.mem_map.mp hr
  have := List.mem_enum (List.mem_of_mem_filter hir)
  obtain ⟨hlt, heq⟩ := this
  rw [heq]
  exact List.getElem_mem hlt

/-- The filter condition of the prune, unfolded: a kept entry is contained
in no entry at a different index. -/
theorem prune_kept_cond {frs : List Rect} {ir : Nat × Rect}
    (hir : ir ∈ frs.enum.filter (fun ir =>
      ! frs.enum.any (fun jr => decide (jr.1 ≠ ir.1 ∧ containedIn ir.2 jr.2)))) :
    ∀ jr ∈ frs.enum, ¬(jr.1 ≠ ir.1 ∧ containedIn ir.2 jr.2) := by
  have h := List.of_mem_filter hir
  simp only [Bool.not_eq_true', List.any_eq_false, decide_eq_true_eq] at h
  exact h

/-- No pruned rectangle is contained in another pruned rectangle. -/
theorem prune_pairwise (frs : List Rect) :
    (prune_free_rectangles frs).Pairwise
      (fun a b => ¬ containedIn a b ∧ ¬ containedIn b a) := by
  unfold prune_free_rectangles
  rw [List.pairwise_map]
  have h1 : (frs.enum.filter (fun ir =>
      ! frs.enum.any (fun jr => decide (jr.1 ≠ ir.1 ∧ containedIn ir.2 jr.2)))).Pairwise
      (fun p q => p.1 < q.1) :=
    List.Pairwise.filter _ (enum_pairwise_lt frs)
  refine List.Pairwise.imp_of_mem ?_ h1
  intro a b ha hb hlt
  have hea : a ∈ frs.enum := List.mem_of_mem_filter ha
  have heb : b ∈ frs.enum := List.mem_of_mem_filter hb
  constructor
  · intro hcont
    exact prune_kept_cond ha b heb ⟨by omega, hcont⟩
  · intro hcont
    exact prune_kept_cond hb a hea ⟨by omega, hcont⟩

/-- C7: no rectangle in the output of the prune operation is wholly
contained in another rectangle of the output (containment meaning all four
edges inside or equal). -/
theorem claim_C7_prune_no_containment (free_rects : List Rect) :
    (prune_free_rectangles free_rects).Pairwise
      (fun a b => ¬ containedIn a b ∧ ¬ containedIn b a) :=
  prune_pairwise free_rects

/-! ## Lemmas about splitting a free rectangle -/

/-- Case analysis on membership in a split: either the free rectangle did
not strictly intersect the placed rectangle and survives unchanged, or the
member is one of the four residual strips whose existence condition holds
(described here by its four components). -/
theorem split_mem_cases {fr pr s : Rect} (hs : s ∈ split_free_rectangle fr pr) :
    ((min (fr.x + fr.w) (pr.x + pr.w) ≤ max fr.x pr.x ∨
      min (fr.y + fr.h) (pr.y + pr.h) ≤ max fr.y pr.y) ∧ s = fr) ∨
    (max fr.x pr.x < min (fr.x + fr.w) (pr.x + pr.w) ∧
     max fr.y pr.y < min (fr.y + fr.h) (pr.y + pr.h) ∧
     ((fr.x < max fr.x pr.x ∧ s.x = fr.x ∧ s.y = fr.y ∧
       s.w = max fr.x pr.x - fr.x ∧ s.h = fr.h) ∨
      (min (fr.x + fr.w) (pr.x + pr.w) < fr.x + fr.w ∧
       s.x = min (fr.x + fr.w) (pr.x + pr.w) ∧ s.y = fr.y ∧
       s.w = fr.x + fr.w - min (fr.x + fr.w) (pr.x + pr.w) ∧ s.h = fr.h) ∨
      (min (fr.y + fr.h) (pr.y + pr.h) < fr.y + fr.h ∧
       s.x = fr.x ∧ s.y = min (fr.y + fr.h) (pr.y + pr.h) ∧
       s.w = fr.w ∧ s.h = fr.y + fr.h - min (fr.y + fr.h) (pr.y + pr.h)) ∨
      (fr.y < max fr.y pr.y ∧ s.x = fr.x ∧ s.y = fr.y ∧
       s.w = fr.w ∧ s.h = max fr.y pr.y - fr.y))) := by
  unfold split_free_rectangle at hs
  by_cases hint : min (fr.x + fr.w) (pr.x + pr.w) ≤ max fr.x pr.x ∨
      min (fr.y + fr.h) (pr.y + pr.h) ≤ max fr.y pr.y
  · rw [if_pos hint] at hs
    exact Or.inl ⟨hint, by simpa using hs⟩
  · rw [if_neg hint] at hs
    push_neg at hint
    refine Or.inr ⟨hint.1, hint.2, ?_⟩
    rw [List.mem_filter] at hs
    obtain ⟨hmem, _⟩ := hs
    simp only [List.mem_append] at hmem
    rcases hmem with ((h | h) | h) | h
    · split_ifs at h with hc
      · rw [List.mem_singleton] at h
        subst h
        exact Or.inl ⟨hc, rfl, rfl, rfl, rfl⟩
      · simp at h
    · split_ifs at h with hc
      · rw [List.mem_singleton] at h
        subst h
        exact Or.inr (Or.inl ⟨hc, rfl, rfl, rfl, rfl⟩)
      · simp at h
    · split_ifs at h with hc
      · rw [List.mem_singleton] at h
        subst h
        exact Or.inr (Or.inr (Or.inl ⟨hc, rfl, rfl, rfl, rfl⟩))
      · simp at h
    · split_ifs at h with hc
      · rw [List.mem_singleton] at h
        subst h
        exact Or.inr (Or.inr (Or.inr ⟨hc, rfl, rfl, rfl, rfl⟩))
      · simp at h

/-- A rectangle disjoint from the placed rectangle survives its split
unchanged. -/
theorem split_eq_of_no_intersect {fr pr : Rect}
    (h : min (fr.x + fr.w) (pr.x + pr.w) ≤ max fr.x pr.x ∨
         min (fr.y + fr.h) (pr.y + pr.h) ≤ max fr.y pr.y) :
    split_free_rectangle fr pr = [fr] := by
  unfold split_free_rectangle
  rw [if_pos h]

/-- A nonpositive placed rectangle splits nothing. -/
theorem split_eq_of_nonpos {fr pr : Rect} (h : pr.w ≤ 0 ∨ pr.h ≤ 0) :
    split_free_rectangle fr pr = [fr] :=
  split_eq_of_no_intersect (by omega)

/-- Every member of a split lies inside the original free rectangle. -/
theorem split_containedIn {fr pr s : Rect}
    (hs : s ∈ split_free_rectangle fr pr) : containedIn s fr := by
  have h := split_mem_cases hs
  unfold containedIn
  rcases h with ⟨hno, rfl⟩ | ⟨hx, hy, h4⟩
  · omega
  · omega

/-- No member of a split of a positive free rectangle overlaps the
(positive) placed rectangle. -/
theorem split_not_overlap {fr pr s : Rect} (hfr : 0 < fr.w ∧ 0 < fr.h)
    (hpr : 0 < pr.w ∧ 0 < pr.h)
    (hs : s ∈ split_free_rectangle fr pr) : ¬ rOverlap s pr := by
  have h := split_mem_cases hs
  unfold rOverlap
  rcases h with ⟨hno, rfl⟩ | ⟨hx, hy, h4⟩
  · omega
  · omega

/-- Splitting preserves positive extents. -/
theorem split_pos {fr pr s : Rect} (hs : s ∈ split_free_rectangle fr pr)
    (hfr : 0 < fr.w ∧ 0 < fr.h) : 0 < s.w ∧ 0 < s.h := by
  have h := split_mem_cases hs
  rcases h with ⟨hno, rfl⟩ | ⟨hx, hy, h4⟩
  · omega
  · omega

/-- The strips of one split are pairwise distinct. -/
theorem split_nodup (fr pr : Rect) : (split_free_rectangle fr pr).Nodup := by
  unfold split_free_rectangle
  by_cases hint : min (fr.x + fr.w) (pr.x + pr.w) ≤ max fr.x pr.x ∨
      min (fr.y + fr.h) (pr.y + pr.h) ≤ max fr.y pr.y
  · rw [if_pos hint]
    simp
  · rw [if_neg hint]
    push_neg at hint
    refine List.Nodup.filter _ ?_
    split_ifs <;>
      simp only [List.cons_append, List.nil_append, List.append_nil,
        List.nodup_cons, List.not_mem_nil, List.mem_cons, List.mem_singleton,
        List.nodup_nil, not_false_iff, and_true, true_and, not_or,
        List.nodup_singleton, Rect.mk.injEq, not_and] <;>
      omega

/-- Splits of two rectangles neither of which contains the other share no
strip, provided the placed rectangle has positive extents. -/
theorem split_disjoint_images {r1 r2 pr : Rect}
    (h12 : ¬ containedIn r1 r2) (h21 : ¬ containedIn r2 r1)
    (hw : 0 < pr.w) (hh : 0 < pr.h) :
    ∀ s, s ∈ split_free_rectangle r1 pr → s ∉ split_free_rectangle r2 pr := by
  intro s hs1 hs2
  have hc1 := split_mem_cases hs1
  have hc2 := split_mem_cases hs2
  unfold containedIn at h12 h21
  rcases hc1 with ⟨hno1, rfl⟩ | ⟨hx1, hy1, h41⟩
  · rcases hc2 with ⟨hno2, heq2⟩ | ⟨hx2, hy2, h42⟩
    · rw [heq2] at h12
      exact h12 ⟨by omega, by omega, by omega, by omega⟩
    · omega
  · rcases hc2 with ⟨hno2, heq2⟩ | ⟨hx2, hy2, h42⟩
    · rw [heq2] at h41
      omega
    · omega

theorem left_strip_mem {fr pr : Rect}
    (hint : ¬(min (fr.x + fr.w) (pr.x + pr.w) ≤ max fr.x pr.x ∨
      min (fr.y + fr.h) (pr.y + pr.h) ≤ max fr.y pr.y))
    (hc : fr.x < max fr.x pr.x) :
    (⟨fr.x, fr.y, max fr.x pr.x - fr.x, fr.h⟩ : Rect)
      ∈ split_free_rectangle fr pr := by
  unfold split_free_rectangle
  rw [if_neg hint]
  push_neg at hint
  refine List.mem_filter.mpr ⟨?_, ?_⟩
  · refine List.mem_append_left _ (List.mem_append_left _
      (List.mem_append_left _ ?_))
    rw [if_pos hc]
    exact List.mem_singleton.mpr rfl
  · rw [decide_eq_true_eq]
    show 0 < max fr.x pr.x - fr.x ∧ 0 < fr.h
    omega

theorem right_strip_mem {fr pr : Rect}
    (hint : ¬(min (fr.x + fr.w) (pr.x + pr.w) ≤ max fr.x pr.x ∨
      min (fr.y + fr.h) (pr.y + pr.h) ≤ max fr.y pr.y))
    (hc : min (fr.x + fr.w) (pr.x + pr.w) < fr.x + fr.w) :
    (⟨min (fr.x + fr.w) (pr.x + pr.w), fr.y,
      fr.x + fr.w - min (fr.x + fr.w) (pr.x + pr.w), fr.h⟩ : Rect)
      ∈ split_free_rectangle fr pr := by
  unfold split_free_rectangle
  rw [if_neg hint]
  push_neg at hint
  refine List.mem_filter.mpr ⟨?_, ?_⟩
  · refine List.mem_append_left _ (List.mem_append_left _
      (List.mem_append_right _ ?_))
    rw [if_pos hc]
    exact List.mem_singleton.mpr rfl
  · rw [decide_eq_true_eq]
    show 0 < fr.x + fr.w - min (fr.x + fr.w) (pr.x + pr.w) ∧ 0 < fr.h
    omega

theorem top_strip_mem {fr pr : Rect}
    (hint : ¬(min (fr.x + fr.w) (pr.x + pr.w) ≤ max fr.x pr.x ∨
      min (fr.y + fr.h) (pr.y + pr.h) ≤ max fr.y pr.y))
    (hc : min (fr.y + fr.h) (pr.y + pr.h) < fr.y + fr.h) :
    (⟨fr.x, min (fr.y + fr.h) (pr.y + pr.h), fr.w,
      fr.y + fr.h - min (fr.y + fr.h) (pr.y + pr.h)⟩ : Rect)
      ∈ split_free_rectangle fr pr := by
  unfold split_free_rectangle
  rw [if_neg hint]
  push_neg at hint
  refine List.mem_filter.mpr ⟨?_, ?_⟩
  · refine List.mem_append_left _ (List.mem_append_right _ ?_)
    rw [if_pos hc]
    exact List.mem_singleton.mpr rfl
  · rw [decide_eq_true_eq]
    show 0 < fr.w ∧ 0 < fr.y + fr.h - min (fr.y + fr.h) (pr.y + pr.h)
    omega

theorem bottom_strip_mem {fr pr : Rect}
    (hint : ¬(min (fr.x + fr.w) (pr.x + pr.w) ≤ max fr.x pr.x ∨
      min (fr.y + fr.h) (pr.y + pr.h) ≤ max fr.y pr.y))
    (hc : fr.y < max fr.y pr.y) :
    (⟨fr.x, fr.y, fr.w, max fr.y pr.y - fr.y⟩ : Rect)
      ∈ split_free_rectangle fr pr := by
  unfold split_free_rectangle
  rw [if_neg hint]
  push_neg at hint
  refine List.mem_filter.mpr ⟨?_, ?_⟩
  · refine List.mem_append_right _ ?_
    rw [if_pos hc]
    exact List.mem_singleton.mpr rfl
  · rw [decide_eq_true_eq]
    show 0 < fr.w ∧ 0 < max fr.y pr.y - fr.y
    omega

/-- A covered point outside the placed rectangle is still covered after
the split. -/
theorem split_cover {fr pr : Rect} {p : Int × Int} (hp : memRect p fr)
    (hnp : ¬ memRect p pr) :
    ∃ s ∈ split_free_rectangle fr pr, memRect p s := by
  by_cases hint : min (fr.x + fr.w) (pr.x + pr.w) ≤ max fr.x pr.x ∨
      min (fr.y + fr.h) (pr.y + pr.h) ≤ max fr.y pr.y
  · refine ⟨fr, ?_, hp⟩
    rw [split_eq_of_no_intersect hint]
    exact List.mem_singleton.mpr rfl
  · unfold memRect at hp hnp
    have hdisj : p.1 < max fr.x pr.x ∨ min (fr.x + fr.w) (pr.x + pr.w) ≤ p.1 ∨
        p.2 < max fr.y pr.y ∨ min (fr.y + fr.h) (pr.y + pr.h) ≤ p.2 := by
      omega
    rcases hdisj with hd | hd | hd | hd
    · refine ⟨_, left_strip_mem hint (by omega), ?_⟩
      unfold memRect
      show fr.x ≤ p.1 ∧ p.1 < fr.x + (max fr.x pr.x - fr.x) ∧
        fr.y ≤ p.2 ∧ p.2 < fr.y + fr.h
      omega
    · refine ⟨_, right_strip_mem hint (by omega), ?_⟩
      unfold memRect
      show min (fr.x + fr.w) (pr.x + pr.w) ≤ p.1 ∧
        p.1 < min (fr.x + fr.w) (pr.x + pr.w) +
          (fr.x + fr.w - min (fr.x + fr.w) (pr.x + pr.w)) ∧
        fr.y ≤ p.2 ∧ p.2 < fr.y + fr.h
      omega
    · refine ⟨_, bottom_strip_mem hint (by omega), ?_⟩
      unfold memRect
      show fr.x ≤ p.1 ∧ p.1 < fr.x + fr.w ∧
        fr.y ≤ p.2 ∧ p.2 < fr.y + (max fr.y pr.y - fr.y)
      omega
    · refine ⟨_, top_strip_mem hint (by omega), ?_⟩
      unfold memRect
      show fr.x ≤ p.1 ∧ p.1 < fr.x + fr.w ∧
        min (fr.y + fr.h) (pr.y + pr.h) ≤ p.2 ∧
        p.2 < min (fr.y + fr.h) (pr.y + pr.h) +
          (fr.y + fr.h - min (fr.y + fr.h) (pr.y + pr.h))
      omega

/-! ## Point-set lemmas for containment and coverage -/

theorem memRect_of_containedIn {a b : Rect} (h : containedIn a b)
    {p : Int × Int} (hp : memRect p a) : memRect p b := by
  unfold containedIn at h
  unfold memRect at hp ⊢
  omega

theorem containedIn_area_le {a b : Rect} (h : containedIn a b)
    (hw : 0 < a.w) (hh : 0 < a.h) : rectArea a ≤ rectArea b := by
  obtain ⟨h1, h2, h3, h4⟩ := h
  unfold rectArea
  have hbw : a.w ≤ b.w := by omega
  have hbh : a.h ≤ b.h := by omega
  have := mul_le_mul hbw hbh (le_of_lt hh) (by omega)
  exact this

theorem containedIn_area_eq {a b : Rect} (h : containedIn a b)
    (hw : 0 < a.w) (hh : 0 < a.h) (harea : rectArea b ≤ rectArea a) :
    a = b := by
  obtain ⟨h1, h2, h3, h4⟩ := h
  have hbw : a.w ≤ b.w := by omega
  have hbh : a.h ≤ b.h := by omega
  unfold rectArea at harea
  have hweq : a.w = b.w := by nlinarith
  have hheq : a.h = b.h := by nlinarith
  cases a
  cases b
  simp only [Rect.mk.injEq]
  simp only at h1 h2 h3 h4 hweq hheq
  omega

/-- Pick an element of maximal key among those satisfying `P`. -/
theorem exists_max_prop (key : α → Int) (P : α → Prop) :
    ∀ (l : List α), (∃ a ∈ l, P a) →
      ∃ m ∈ l, P m ∧ ∀ b ∈ l, P b → key b ≤ key m := by
  intro l
  induction l with
  | nil => rintro ⟨a, ha, _⟩; simp at ha
  | cons x l ih =>
    rintro ⟨a, ha, hPa⟩
    by_cases hl : ∃ b ∈ l, P b
    · obtain ⟨m, hm, hPm, hmax⟩ := ih hl
      by_cases hPx : P x
      · rcases le_or_lt (key m) (key x) with hcmp | hcmp
        · refine ⟨x, List.mem_cons_self x l, hPx, ?_⟩
          intro b hb hPb
          rcases List.mem_cons.mp hb with rfl | hb'
          · exact le_refl _
          · exact le_trans (hmax b hb' hPb) hcmp
        · refine ⟨m, List.mem_cons_of_mem x hm, hPm, ?_⟩
          intro b hb hPb
          rcases List.mem_cons.mp hb with rfl | hb'
          · exact le_of_lt hcmp
          · exact hmax b hb' hPb
      · refine ⟨m, List.mem_cons_of_mem x hm, hPm, ?_⟩
        intro b hb hPb
        rcases List.mem_cons.mp hb with rfl | hb'
        · exact absurd hPb hPx
        · exact hmax b hb' hPb
    · have hPx : P x := by
        rcases List.mem_cons.mp ha with rfl | ha'
        · exact hPa
        · exact absurd ⟨a, ha', hPa⟩ hl
      refine ⟨x, List.mem_cons_self x l, hPx, ?_⟩
      intro b hb hPb
      rcases List.mem_cons.mp hb with rfl | hb'
      · exact le_refl _
      · exact absurd ⟨b, hb', hPb⟩ hl

/-- Pruning a duplicate-free list of positive-size rectangles loses no
covered point: some surviving rectangle still covers it. -/
theorem prune_cover (frs : List Rect) (hnd : frs.Nodup)
    (hpos : ∀ r ∈ frs, 0 < r.w ∧ 0 < r.h) (p : Int × Int) (r : Rect)
    (hr : r ∈ frs) (hp : memRect p r) :
    ∃ q ∈ prune_free_rectangles frs, memRect p q := by
  obtain ⟨m, hm, hPm, hmax⟩ :=
    exists_max_prop rectArea (fun r => memRect p r) frs ⟨r, hr, hp⟩
  refine ⟨m, ?_, hPm⟩
  obtain ⟨i, hi, hieq⟩ := List.getElem_of_mem hm
  have hienum : (i, m) ∈ frs.enum := by
    have hl : i < frs.enum.length := by rw [List.enum_length]; exact hi
    have := List.getElem_enum frs i hl
    rw [hieq] at this
    rw [← this]
    exact List.getElem_mem hl
  unfold prune_free_rectangles
  refine List.mem_map.mpr ⟨(i, m), ?_, rfl⟩
  refine List.mem_filter.mpr ⟨hienum, ?_⟩
  simp only [Bool.not_eq_true', List.any_eq_false, decide_eq_true_eq]
  rintro ⟨j, r'⟩ hjr ⟨hne, hcont⟩
  obtain ⟨hj, hr'eq⟩ := List.mem_enum hjr
  have hr'mem : r' ∈ frs := by rw [hr'eq]; exact List.getElem_mem hj
  have hpr' : memRect p r' := memRect_of_containedIn hcont hPm
  have hposm := hpos m hm
  have heq : m = r' :=
    containedIn_area_eq hcont hposm.1 hposm.2 (hmax r' hr'mem hpr')
  have : frs[j] = frs[i] := by rw [← hr'eq, ← heq, hieq]
  rw [(List.Nodup.getElem_inj_iff hnd)] at this
  exact hne (by omega)

/-! ## Lemmas about the free-rectangle update -/

theorem update_mem {frs : List Rect} {P q : Rect}
    (hq : q ∈ update_free_rects frs P) :
    ∃ r ∈ frs, q ∈ split_free_rectangle r P := by
  unfold update_free_rects at hq
  exact List.mem_flatMap.mp (prune_subset hq)

theorem containedIn_refl (r : Rect) : containedIn r r := by
  unfold containedIn
  omega

theorem rOverlap_mono {a r b : Rect} (hc : containedIn a r)
    (ho : rOverlap a b) : rOverlap r b := by
  unfold containedIn at hc
  unfold rOverlap at ho ⊢
  omega

theorem rOverlap_symm {a b : Rect} (h : rOverlap a b) : rOverlap b a := by
  unfold rOverlap at h ⊢
  omega

theorem antichain_nodup {l : List Rect}
    (h : l.Pairwise (fun a b => ¬ containedIn a b ∧ ¬ containedIn b a)) :
    l.Nodup := by
  refine h.imp ?_
  intro a b hab heq
  exact hab.1 (by rw [heq]; exact containedIn_refl b)

theorem flatMap_split_eq_of_nonpos {frs : List Rect} {P : Rect}
    (h : P.w ≤ 0 ∨ P.h ≤ 0) :
    frs.flatMap (fun r => split_free_rectangle r P) = frs := by
  induction frs with
  | nil => rfl
  | cons r rest ih =>
    rw [List.flatMap_cons, split_eq_of_nonpos h, ih]
    rfl

theorem flatMap_split_nodup {frs : List Rect} {P : Rect}
    (hanti : frs.Pairwise (fun a b => ¬ containedIn a b ∧ ¬ containedIn b a)) :
    (frs.flatMap (fun r => split_free_rectangle r P)).Nodup := by
  by_cases hP : 0 < P.w ∧ 0 < P.h
  · rw [List.nodup_flatMap]
    refine ⟨fun r _ => split_nodup r P, ?_⟩
    refine hanti.imp ?_
    intro a b hab
    intro s hs1 hs2
    exact split_disjoint_images hab.1 hab.2 hP.1 hP.2 s hs1 hs2
  · rw [flatMap_split_eq_of_nonpos (by omega)]
    exact antichain_nodup hanti

theorem flatMap_split_pos {frs : List Rect} {P : Rect}
    (hpos : ∀ r ∈ frs, 0 < r.w ∧ 0 < r.h) :
    ∀ s ∈ frs.flatMap (fun r => split_free_rectangle r P),
      0 < s.w ∧ 0 < s.h := by
  intro s hs
  obtain ⟨r, hr, hsr⟩ := List.mem_flatMap.mp hs
  exact split_pos hsr (hpos r hr)

theorem update_containedIn {frs : List Rect} {P q : Rect}
    (hq : q ∈ update_free_rects frs P) : ∃ r ∈ frs, containedIn q r := by
  obtain ⟨r, hr, hqr⟩ := update_mem hq
  exact ⟨r, hr, split_containedIn hqr⟩

theorem update_pos {frs : List Rect} {P q : Rect}
    (hpos : ∀ r ∈ frs, 0 < r.w ∧ 0 < r.h)
    (hq : q ∈ update_free_rects frs P) : 0 < q.w ∧ 0 < q.h := by
  obtain ⟨r, hr, hqr⟩ := update_mem hq
  exact split_pos hqr (hpos r hr)

theorem update_not_overlap {frs : List Rect} {P q : Rect}
    (hpos : ∀ r ∈ frs, 0 < r.w ∧ 0 < r.h) (hP : 0 < P.w ∧ 0 < P.h)
    (hq : q ∈ update_free_rects frs P) : ¬ rOverlap q P := by
  obtain ⟨r, hr, hqr⟩ := update_mem hq
  exact split_not_overlap (hpos r hr) hP hqr

theorem update_antichain (frs : List Rect) (P : Rect) :
    (update_free_rects frs P).Pairwise
      (fun a b => ¬ containedIn a b ∧ ¬ containedIn b a) :=
  prune_pairwise _

theorem update_cover {frs : List Rect} {P : Rect} {p : Int × Int}
    (hanti : frs.Pairwise (fun a b => ¬ containedIn a b ∧ ¬ containedIn b a))
    (hpos : ∀ r ∈ frs, 0 < r.w ∧ 0 < r.h) {r : Rect}
    (hr : r ∈ frs) (hpr : memRect p r) (hnp : ¬ memRect p P) :
    ∃ q ∈ update_free_rects frs P, memRect p q := by
  obtain ⟨s, hs, hps⟩ := split_cover hpr hnp
  have hsflat : s ∈ frs.flatMap (fun r => split_free_rectangle r P) :=
    List.mem_flatMap.mpr ⟨r, hr, hs⟩
  exact prune_cover _ (flatMap_split_nodup hanti) (flatMap_split_pos hpos)
    p s hsflat hps

/-! ## The Face Packer invariant (claim C2) -/

theorem packInv_init (W H : Int) (hW : 0 < W) (hH : 0 < H) :
    PackInv W H (initPackState W H) := by
  refine ⟨?_, ?_, ?_, ?_, ?_, ?_, ?_, ?_⟩
  · intro r hr
    rw [show (initPackState W H).free_rects = [⟨0, 0, W, H⟩] from rfl,
      List.mem_singleton] at hr
    subst hr
    show (0 : Int) ≤ 0 ∧ (0 : Int) ≤ 0 ∧ 0 + W ≤ W ∧ 0 + H ≤ H
    omega
  · intro r hr
    rw [show (initPackState W H).free_rects = [⟨0, 0, W, H⟩] from rfl,
      List.mem_singleton] at hr
    subst hr
    exact ⟨hW, hH⟩
  · exact List.pairwise_singleton _ _
  · intro r _ p hp
    simp only [show (initPackState W H).placed = [] from rfl,
      List.not_mem_nil] at hp
  · intro p hp
    simp only [show (initPackState W H).placed = [] from rfl,
      List.not_mem_nil] at hp
  · intro p hp
    simp only [show (initPackState W H).placed = [] from rfl,
      List.not_mem_nil] at hp
  · exact List.Pairwise.nil
  · intro q h1 h2 h3 h4
    refine Or.inr ⟨⟨0, 0, W, H⟩, List.mem_singleton.mpr rfl, ?_⟩
    show (0 : Int) ≤ q.1 ∧ q.1 < 0 + W ∧ (0 : Int) ≤ q.2 ∧ q.2 < 0 + H
    omega

theorem placeFootprint_inv {W H : Int} {s s' : PackState} {rw0 rh0 : Int}
    (hrw : 0 < rw0) (hrh : 0 < rh0)
    (hinv : PackInv W H s) (h : placeFootprint s rw0 rh0 = some s') :
    PackInv W H s' := by
  unfold placeFootprint at h
  cases hfp : find_position_for_rect s.free_rects rw0 rh0 with
  | none => rw [hfp] at h; exact absurd h (by simp)
  | some res =>
    obtain ⟨fr, px, py, sc⟩ := res
    rw [hfp] at h
    simp only [Option.some.injEq] at h
    obtain ⟨hmem, hw, hh, hpx, hpy⟩ :=
      find_position_some s.free_rects rw0 rh0 px py sc fr hfp
    subst hpx
    subst hpy
    subst h
    have hPfr : containedIn ⟨fr.x, fr.y, rw0, rh0⟩ fr := by
      show fr.x ≤ fr.x ∧ fr.y ≤ fr.y ∧
        fr.x + rw0 ≤ fr.x + fr.w ∧ fr.y + rh0 ≤ fr.y + fr.h
      omega
    have hPpos : (0 : Int) < (Rect.mk fr.x fr.y rw0 rh0).w ∧
        (0 : Int) < (Rect.mk fr.x fr.y rw0 rh0).h := ⟨hrw, hrh⟩
    refine ⟨?_, ?_, ?_, ?_, ?_, ?_, ?_, ?_⟩
    · intro q hq
      obtain ⟨r, hrm, hc⟩ := update_containedIn hq
      have hif := hinv.free_inface r hrm
      unfold containedIn at hc
      omega
    · intro q hq
      exact update_pos hinv.free_pos hq
    · exact update_antichain _ _
    · intro q hq p hp
      rw [List.mem_append] at hp
      rcases hp with hp | hp
      · obtain ⟨r, hrm, hc⟩ := update_containedIn hq
        exact fun hov =>
          hinv.free_placed r hrm p hp (rOverlap_mono hc hov)
      · rw [List.mem_singleton] at hp
        subst hp
        exact update_not_overlap hinv.free_pos hPpos hq
    · intro p hp
      rw [List.mem_append] at hp
      rcases hp with hp | hp
      · exact hinv.placed_inface p hp
      · rw [List.mem_singleton] at hp
        subst hp
        have hif := hinv.free_inface fr hmem
        show 0 ≤ fr.x ∧ 0 ≤ fr.y ∧ fr.x + rw0 ≤ W ∧ fr.y + rh0 ≤ H
        omega
    · intro p hp
      rw [List.mem_append] at hp
      rcases hp with hp | hp
      · exact hinv.placed_pos p hp
      · rw [List.mem_singleton] at hp
        subst hp
        exact hPpos
    · rw [List.pairwise_append]
      refine ⟨hinv.placed_disjoint, List.pairwise_singleton _ _, ?_⟩
      intro a ha b hb
      rw [List.mem_singleton] at hb
      subst hb
      intro hov
      exact hinv.free_placed fr hmem a ha (rOverlap_mono hPfr (rOverlap_symm hov))
    · intro q h1 h2 h3 h4
      rcases hinv.cover q h1 h2 h3 h4 with ⟨p, hp, hqp⟩ | ⟨r, hrm, hqr⟩
      · exact Or.inl ⟨p, List.mem_append_left _ hp, hqp⟩
      · by_cases hqP : memRect q ⟨fr.x, fr.y, rw0, rh0⟩
        · exact Or.inl ⟨_, List.mem_append_right _ (List.mem_singleton.mpr rfl),
            hqP⟩
        · exact Or.inr
            (update_cover hinv.free_antichain hinv.free_pos hrm hqr hqP)

theorem runPlaces_inv {W H : Int} (reqs : List (Int × Int))
    (hreqs : ∀ q ∈ reqs, 0 < q.1 ∧ 0 < q.2) :
    ∀ s : PackState, PackInv W H s → PackInv W H (runPlaces s reqs) := by
  induction reqs with
  | nil => intro s h; exact h
  | cons q rest ih =>
    intro s h
    unfold runPlaces
    rw [List.foldl_cons]
    have hstep : ∀ s0 : PackState, PackInv W H s0 →
        PackInv W H (match placeFootprint s0 q.1 q.2 with
          | some st' => st'
          | none => s0) := by
      intro s0 h0
      cases hpf : placeFootprint s0 q.1 q.2 with
      | none => exact h0
      | some st' =>
        exact placeFootprint_inv (hreqs q (List.mem_cons_self q rest)).1
          (hreqs q (List.mem_cons_self q rest)).2 h0 hpf
    exact ih (fun q2 hq2 => hreqs q2 (List.mem_cons_of_mem q hq2)) _ (hstep s h)

/-- C2 counterexample: one successful `place` of a `30 × 20` footprint on
a `100 × 100` face already yields two overlapping free rectangles, whose
areas together with the placed footprint sum to 15600 ≠ 10000, refuting
the exact-tiling/area-conservation invariant. -/
theorem claim_C2_counterexample :
    (runPlaces (initPackState 100 100) [(30, 20)]).free_rects
        = [⟨30, 0, 70, 100⟩, ⟨0, 20, 100, 80⟩] ∧
    rOverlap ⟨30, 0, 70, 100⟩ ⟨0, 20, 100, 80⟩ ∧
    ((runPlaces (initPackState 100 100) [(30, 20)]).free_rects.map rectArea).sum
      + ((runPlaces (initPackState 100 100) [(30, 20)]).placed.map
          rectArea).sum ≠ 100 * 100 := by
  refine ⟨by decide, by decide, by decide⟩

/-- C2 amended: after every sequence of place operations with positive
footprints on a positive face, the free rectangles stay inside the face,
no free rectangle is contained in another, free rectangles never overlap
a placed footprint, the placed footprints lie inside the face and are
pairwise non-overlapping, and every face point outside all placed
footprints lies in some free rectangle (no gap) — but free rectangles
may overlap one another, so the area sum can exceed the face area. -/
theorem claim_C2_face_conservation (W H : Int) (reqs : List (Int × Int))
    (hW : 0 < W) (hH : 0 < H) (hreqs : ∀ q ∈ reqs, 0 < q.1 ∧ 0 < q.2) :
    (∀ r ∈ (runPlaces (initPackState W H) reqs).free_rects,
        0 ≤ r.x ∧ 0 ≤ r.y ∧ r.x + r.w ≤ W ∧ r.y + r.h ≤ H) ∧
    (runPlaces (initPackState W H) reqs).free_rects.Pairwise
        (fun a b => ¬ containedIn a b ∧ ¬ containedIn b a) ∧
    (∀ r ∈ (runPlaces (initPackState W H) reqs).free_rects,
        ∀ p ∈ (runPlaces (initPackState W H) reqs).placed, ¬ rOverlap r p) ∧
    (∀ p ∈ (runPlaces (initPackState W H) reqs).placed,
        0 ≤ p.x ∧ 0 ≤ p.y ∧ p.x + p.w ≤ W ∧ p.y + p.h ≤ H) ∧
    (runPlaces (initPackState W H) reqs).placed.Pairwise
        (fun a b => ¬ rOverlap a b) ∧
    (∀ px py : Int, 0 ≤ px → px < W → 0 ≤ py → py < H →
        (∃ p ∈ (runPlaces (initPackState W H) reqs).placed,
          memRect (px, py) p) ∨
        (∃ r ∈ (runPlaces (initPackState W H) reqs).free_rects,
          memRect (px, py) r)) := by
  have h := runPlaces_inv reqs hreqs (initPackState W H)
    (packInv_init W H hW hH)
  exact ⟨h.free_inface, h.free_antichain, h.free_placed, h.placed_inface,
    h.placed_disjoint,
    fun px py h1 h2 h3 h4 => h.cover (px, py) h1 h2 h3 h4⟩

/-- Witness for the amended C2 at the counterexample input. -/
theorem claim_C2_witness :
    (∀ r ∈ (runPlaces (initPackState 100 100) [(30, 20)]).free_rects,
        0 ≤ r.x ∧ 0 ≤ r.y ∧ r.x + r.w ≤ 100 ∧ r.y + r.h ≤ 100) ∧
    (runPlaces (initPackState 100 100) [(30, 20)]).free_rects.Pairwise
        (fun a b => ¬ containedIn a b ∧ ¬ containedIn b a) ∧
    (∀ r ∈ (runPlaces (initPackState 100 100) [(30, 20)]).free_rects,
        ∀ p ∈ (runPlaces (initPackState 100 100) [(30, 20)]).placed,
          ¬ rOverlap r p) ∧
    (∀ p ∈ (runPlaces (initPackState 100 100) [(30, 20)]).placed,
        0 ≤ p.x ∧ 0 ≤ p.y ∧ p.x + p.w ≤ 100 ∧ p.y + p.h ≤ 100) ∧
    (runPlaces (initPackState 100 100) [(30, 20)]).placed.Pairwise
        (fun a b => ¬ rOverlap a b) ∧
    (∀ px py : Int, 0 ≤ px → px < 100 → 0 ≤ py → py < 100 →
        (∃ p ∈ (runPlaces (initPackState 100 100) [(30, 20)]).placed,
          memRect (px, py) p) ∨
        (∃ r ∈ (runPlaces (initPackState 100 100) [(30, 20)]).free_rects,
          memRect (px, py) r)) :=
  claim_C2_face_conservation 100 100 [(30, 20)] (by decide) (by decide)
    (by decide)

/-! ## Claim C1: the spec's worked example -/

/-- C1 counterexample: on the spec's example input the allocator does
place A first at (0,0) and B at (30,0), but A's best orientation is the
footprint `30 × 20` with depth 40 (area 600), not the claimed footprint
`30 × 40` with depth 20 (area 1200): A's placed box ends at
`(width 30, depth 40, height 20)`, which differs from the box the claim
requires. -/
theorem claim_C1_counterexample :
    (place_items_optimally [exItemA, exItemB] [exContainerC]).1
        = [⟨"C", "A", ⟨⟨0, 0, 0⟩, ⟨30, 40, 20⟩⟩⟩,
           ⟨"C", "B", ⟨⟨30, 0, 0⟩, ⟨80, 50, 10⟩⟩⟩] ∧
    ¬((Coords.mk 30 40 20).depth = 20 ∧ (Coords.mk 30 40 20).height = 40) := by
  exact ⟨by decide, by decide⟩

/-- C1 amended: on the spec's example input the allocator places A first
using the best orientation, whose footprint is `30 × 20` with depth 40
(area 600, the minimal-area feasible candidate), anchored at (0,0), and
then places B at (30,0) with footprint `50 × 10` and depth 50, without
overlapping A. -/
theorem claim_C1_example_allocation :
    (place_items_optimally [exItemA, exItemB] [exContainerC]).1
        = [⟨"C", "A", ⟨⟨0, 0, 0⟩, ⟨30, 40, 20⟩⟩⟩,
           ⟨"C", "B", ⟨⟨30, 0, 0⟩, ⟨80, 50, 10⟩⟩⟩] ∧
    get_best_orientation exItemA exContainerC.depth = some (30, 20, 40) ∧
    footprintOf ⟨"C", "A", ⟨⟨0, 0, 0⟩, ⟨30, 40, 20⟩⟩⟩ = ⟨0, 0, 30, 20⟩ ∧
    footprintOf ⟨"C", "B", ⟨⟨30, 0, 0⟩, ⟨80, 50, 10⟩⟩⟩ = ⟨30, 0, 50, 10⟩ ∧
    ¬ rOverlap ⟨0, 0, 30, 20⟩ ⟨30, 0, 50, 10⟩ := by
  refine ⟨by decide, by decide, by decide, by decide, by decide⟩

/-! ## Claim C5: retrieval planning -/

theorem blockingItems_eq_spec (target : Placement) (placements : List Placement) :
    blockingItems target placements = blockersSpec target placements := by
  unfold blockingItems blockersSpec
  refine List.filter_congr ?_
  intro p _
  rw [decide_eq_decide]
  unfold footprintOf
  dsimp only
  constructor
  · rintro ⟨h1, h2, h3, h4⟩
    exact ⟨h1, h2, h3, by omega⟩
  · rintro ⟨h1, h2, h3, h4⟩
    exact ⟨h1, h2, h3, by omega⟩

theorem removeSteps_enumFrom (l : List Placement) :
    ∀ c, removeSteps c l
      = (List.enumFrom c l).map (fun ip => ⟨ip.1, "remove", true, ip.2.itemId⟩) := by
  induction l with
  | nil => intro c; rfl
  | cons p rest ih =>
    intro c
    rw [removeSteps, List.enumFrom_cons, List.map_cons, ih (c + 1)]

/-- C5: a target whose box starts at depth 0 yields exactly one
`retrieve` step; otherwise the plan is one place-back-flagged `remove`
step per blocking placement, in placement-scan order and numbered from 1,
followed by one final `retrieve` step for the target. -/
theorem claim_C5_retrieval_plan (target : Placement) (placements : List Placement) :
    (target.position.startCoordinates.depth = 0 →
      retrieval_steps target placements
        = [⟨0, "retrieve", false, target.itemId⟩]) ∧
    (target.position.startCoordinates.depth ≠ 0 →
      retrieval_steps target placements
        = (List.enumFrom 1 (blockersSpec target placements)).map
            (fun ip => ⟨ip.1, "remove", true, ip.2.itemId⟩)
          ++ [⟨(blockersSpec target placements).length + 1, "retrieve",
               false, target.itemId⟩]) := by
  constructor
  · intro h0
    unfold retrieval_steps
    rw [if_pos h0]
  · intro hne
    unfold retrieval_steps
    rw [if_neg hne]
    rw [blockingItems_eq_spec, removeSteps_enumFrom]
    rw [Nat.add_comm 1 (blockersSpec target placements).length]

/-- Witness for C5: a buried target with one overlapping and one
non-overlapping open-face placement, and a directly accessible target. -/
theorem claim_C5_witness :
    retrieval_steps ⟨"C", "T", ⟨⟨0, 5, 0⟩, ⟨10, 15, 10⟩⟩⟩
        [⟨"C", "X", ⟨⟨5, 0, 5⟩, ⟨20, 3, 20⟩⟩⟩,
         ⟨"C", "Y", ⟨⟨50, 0, 50⟩, ⟨60, 3, 60⟩⟩⟩]
      = [⟨1, "remove", true, "X"⟩, ⟨2, "retrieve", false, "T"⟩] ∧
    retrieval_steps ⟨"C", "T0", ⟨⟨0, 0, 0⟩, ⟨10, 3, 10⟩⟩⟩ []
      = [⟨0, "retrieve", false, "T0"⟩] := by
  constructor
  · rw [(claim_C5_retrieval_plan ⟨"C", "T", ⟨⟨0, 5, 0⟩, ⟨10, 15, 10⟩⟩⟩
      [⟨"C", "X", ⟨⟨5, 0, 5⟩, ⟨20, 3, 20⟩⟩⟩,
       ⟨"C", "Y", ⟨⟨50, 0, 50⟩, ⟨60, 3, 60⟩⟩⟩]).2 (by decide)]
    decide
  · exact (claim_C5_retrieval_plan ⟨"C", "T0", ⟨⟨0, 0, 0⟩, ⟨10, 3, 10⟩⟩⟩ []).1 rfl

/-! ## Claim C6: the rearrangement differ -/

theorem numberFrom_append (l1 : List RStep) :
    ∀ (l2 : List RStep) (c : Nat),
      numberFrom c (l1 ++ l2) = numberFrom c l1 ++ numberFrom (c + l1.length) l2 := by
  induction l1 with
  | nil => intro l2 c; simp [numberFrom]
  | cons a l1 ih =>
    intro l2 c
    rw [List.cons_append, numberFrom, numberFrom, ih l2 (c + 1), List.cons_append]
    have : c + 1 + l1.length = c + (a :: l1).length := by
      simp [List.length_cons]
      omega
    rw [this]

theorem dictInsert_append :
    ∀ (d : List (String × Placement)) (p : Placement),
      p.itemId ∉ d.map Prod.fst → dictInsert d p = d ++ [(p.itemId, p)] := by
  intro d
  induction d with
  | nil => intro p _; rfl
  | cons e rest ih =>
    intro p hp
    obtain ⟨k, v⟩ := e
    simp only [List.map_cons, List.mem_cons] at hp
    push_neg at hp
    rw [dictInsert, if_neg (fun h => hp.1 h.symm), ih p hp.2, List.cons_append]

theorem foldl_dictInsert_eq (ps : List Placement) :
    ∀ acc : List (String × Placement),
      ((acc.map Prod.fst) ++ ps.map Placement.itemId).Nodup →
      ps.foldl dictInsert acc = acc ++ ps.map (fun p => (p.itemId, p)) := by
  induction ps with
  | nil => intro acc _; simp
  | cons p ps ih =>
    intro acc h
    rw [List.foldl_cons]
    have hnotin : p.itemId ∉ acc.map Prod.fst := by
      intro hin
      have hdisj := List.disjoint_of_nodup_append h
      exact hdisj hin (by simp)
    rw [dictInsert_append acc p hnotin]
    rw [ih (acc ++ [(p.itemId, p)]) (by simpa [List.append_assoc] using h)]
    simp [List.append_assoc]

/-- With unique item ids a snapshot's dict is just the snapshot paired
with its keys, in order. -/
theorem dictOf_eq_map (ps : List Placement)
    (h : (ps.map Placement.itemId).Nodup) :
    dictOf ps = ps.map (fun p => (p.itemId, p)) := by
  have := foldl_dictInsert_eq ps [] (by simpa using h)
  simpa [dictOf] using this

theorem dictLookup_map (ps : List Placement) (k : String) :
    dictLookup (ps.map (fun p => (p.itemId, p))) k
      = ps.find? (fun p => decide (p.itemId = k)) := by
  unfold dictLookup
  rw [List.find?_map]
  rw [show ((fun e : String × Placement => decide (e.1 = k)) ∘
      (fun p : Placement => (p.itemId, p)))
      = (fun p : Placement => decide (p.itemId = k)) from rfl]
  rw [Option.map_map]
  rw [show ((fun e : String × Placement => e.2) ∘
      (fun p : Placement => (p.itemId, p))) = id from rfl]
  rw [Option.map_id]
  rfl

theorem rearrangePass1_eq (old : List Placement) :
    ∀ (new : List Placement) (c : Nat),
      rearrangePass1 (old.map (fun p => (p.itemId, p)))
          (new.map (fun p => (p.itemId, p))) c
        = (numberFrom c (specPass1 old new), c + (specPass1 old new).length) := by
  intro new
  induction new with
  | nil => intro c; simp [rearrangePass1, specPass1, numberFrom]
  | cons np rest ih =>
    intro c
    rw [List.map_cons, rearrangePass1, dictLookup_map]
    rw [specPass1, List.filterMap_cons]
    cases hfind : old.find? (fun op => decide (op.itemId = np.itemId)) with
    | none =>
      dsimp only
      rw [ih (c + 1)]
      rw [show (List.filterMap (fun np =>
        match old.find? (fun op => decide (op.itemId = np.itemId)) with
        | none => some ⟨0, "place", np.itemId, "NONE", zeroPosition,
            np.containerId, np.position⟩
        | some op =>
          if op.containerId ≠ np.containerId ∨ op.position ≠ np.position then
            some ⟨0, "move", np.itemId, op.containerId, op.position,
              np.containerId, np.position⟩
          else none) rest) = specPass1 old rest from rfl]
      rw [numberFrom]
      simp [Nat.add_comm, Nat.add_assoc, Nat.add_left_comm]
    | some op =>
      dsimp only
      by_cases hchg : op.containerId ≠ np.containerId ∨ op.position ≠ np.position
      · rw [if_pos hchg, if_pos hchg, ih (c + 1)]
        rw [show (List.filterMap (fun np =>
          match old.find? (fun op => decide (op.itemId = np.itemId)) with
          | none => some ⟨0, "place", np.itemId, "NONE", zeroPosition,
              np.containerId, np.position⟩
          | some op =>
            if op.containerId ≠ np.containerId ∨ op.position ≠ np.position then
              some ⟨0, "move", np.itemId, op.containerId, op.position,
                np.containerId, np.position⟩
            else none) rest) = specPass1 old rest from rfl]
        rw [numberFrom]
        simp [Nat.add_comm, Nat.add_assoc, Nat.add_left_comm]
      · rw [if_neg hchg, if_neg hchg, ih c]
        rfl

theorem rearrangePass2_eq (new : List Placement) :
    ∀ (old : List Placement) (c : Nat),
      rearrangePass2 (new.map (fun p => (p.itemId, p)))
          (old.map (fun p => (p.itemId, p))) c
        = numberFrom c (specPass2 old new) := by
  intro old
  induction old with
  | nil => intro c; rfl
  | cons op rest ih =>
    intro c
    rw [List.map_cons, rearrangePass2, dictLookup_map]
    rw [specPass2, List.filterMap_cons]
    cases hfind : new.find? (fun np => decide (np.itemId = op.itemId)) with
    | none =>
      rw [if_pos rfl]
      simp only [Option.isSome_none, Bool.false_eq_true, if_false]
      rw [show (List.filterMap (fun op =>
        if (new.find? (fun np => decide (np.itemId = op.itemId))).isSome then none
        else some ⟨0, "remove", op.itemId, op.containerId, op.position,
          "NONE", zeroPosition⟩) rest) = specPass2 rest new from rfl]
      rw [numberFrom, ih (c + 1)]
    | some q =>
      rw [if_neg (by simp)]
      simp only [Option.isSome_some, if_true]
      rw [show (List.filterMap (fun op =>
        if (new.find? (fun np => decide (np.itemId = op.itemId))).isSome then none
        else some ⟨0, "remove", op.itemId, op.containerId, op.position,
          "NONE", zeroPosition⟩) rest) = specPass2 rest new from rfl]
      exact ih c

/-- C6: with unique item ids in each snapshot, the differ emits, in a
first pass over the new snapshot in order, a `place` step for each item
absent from the old snapshot and a `move` step for each item whose
container or box changed, and, in a second pass over the old snapshot in
order, a `remove` step for each item absent from the new snapshot, with
steps numbered sequentially from 1 across both passes and box equality
being exact coordinate equality. -/
theorem claim_C6_rearrangement_diff (old new : List Placement)
    (hold : (old.map Placement.itemId).Nodup)
    (hnew : (new.map Placement.itemId).Nodup) :
    generate_rearrangements old new = rearrangementsSpec old new := by
  unfold generate_rearrangements rearrangementsSpec
  rw [dictOf_eq_map old hold, dictOf_eq_map new hnew]
  rw [rearrangePass1_eq, rearrangePass2_eq, numberFrom_append]

/-- Witness for C6: one unchanged item, one moved item, one new item and
one removed item. -/
theorem claim_C6_witness :
    generate_rearrangements
        [⟨"C1", "K", ⟨⟨0, 0, 0⟩, ⟨5, 5, 5⟩⟩⟩,
         ⟨"C1", "M", ⟨⟨5, 0, 0⟩, ⟨9, 2, 2⟩⟩⟩,
         ⟨"C1", "R", ⟨⟨0, 0, 5⟩, ⟨5, 5, 9⟩⟩⟩]
        [⟨"C2", "N", ⟨⟨0, 0, 0⟩, ⟨3, 3, 3⟩⟩⟩,
         ⟨"C1", "K", ⟨⟨0, 0, 0⟩, ⟨5, 5, 5⟩⟩⟩,
         ⟨"C2", "M", ⟨⟨5, 0, 0⟩, ⟨9, 2, 2⟩⟩⟩]
      = [⟨1, "place", "N", "NONE", zeroPosition, "C2", ⟨⟨0, 0, 0⟩, ⟨3, 3, 3⟩⟩⟩,
         ⟨2, "move", "M", "C1", ⟨⟨5, 0, 0⟩, ⟨9, 2, 2⟩⟩, "C2", ⟨⟨5, 0, 0⟩, ⟨9, 2, 2⟩⟩⟩,
         ⟨3, "remove", "R", "C1", ⟨⟨0, 0, 5⟩, ⟨5, 5, 9⟩⟩, "NONE", zeroPosition⟩] := by
  rw [claim_C6_rearrangement_diff _ _ (by decide) (by decide)]
  decide

/-! ## Claim C8: determinism of the allocator -/

/-- C8: the allocator is deterministic — two runs on identical
items-and-containers inputs produce identical placement lists and
identical unplaced-item lists.  (The embedding is a pure function of its
inputs, mirroring that the Python computation depends only on the
`items`/`containers` arguments.) -/
theorem claim_C8_allocator_deterministic (items1 items2 : List Item)
    (containers1 containers2 : List Container)
    (hi : items1 = items2) (hc : containers1 = containers2) :
    place_items_optimally items1 containers1
      = place_items_optimally items2 containers2 := by
  subst hi
  subst hc
  rfl

/-- Witness for C8 at the spec's example input. -/
theorem claim_C8_witness :
    place_items_optimally [exItemA, exItemB] [exContainerC]
      = place_items_optimally [exItemA, exItemB] [exContainerC] :=
  claim_C8_allocator_deterministic [exItemA, exItemB] [exItemA, exItemB]
    [exContainerC] [exContainerC] rfl rfl

/-! ## Claim C9: geometric soundness of the allocator -/

theorem get_best_orientation_mem {it : Item} {D a b c : Int}
    (h : get_best_orientation it D = some (a, b, c)) :
    c ≤ D ∧ ∃ o ∈ orientCandidates it.width it.height it.depth,
      o.w = a ∧ o.h = b ∧ o.d = c := by
  unfold get_best_orientation at h
  cases hft : (orientCandidates it.width it.height it.depth).filter
      (fun o => decide (o.d ≤ D)) with
  | nil => rw [hft] at h; exact absurd h (by simp)
  | cons f fs =>
    rw [hft] at h
    simp only [Option.some.injEq, Prod.mk.injEq] at h
    obtain ⟨ha, hb, hc⟩ := h
    have hmem := pyMinGo_mem Orient.area fs f
    rw [← hft] at hmem
    have hd := List.of_mem_filter hmem
    rw [decide_eq_true_eq] at hd
    exact ⟨by omega, pyMinGo Orient.area f fs,
      List.mem_of_mem_filter hmem, ha, hb, hc⟩

theorem get_best_orientation_pos {it : Item} {D a b c : Int}
    (hit : 0 < it.width ∧ 0 < it.height ∧ 0 < it.depth)
    (h : get_best_orientation it D = some (a, b, c)) :
    0 < a ∧ 0 < b ∧ 0 < c := by
  obtain ⟨-, o, ho, ha, hb, hc⟩ := get_best_orientation_mem h
  simp only [orientCandidates, List.mem_cons, List.not_mem_nil, or_false] at ho
  rcases ho with rfl | rfl | rfl
  · rw [show (Orient.mk it.width it.height it.depth
      (it.width * it.height)).w = it.width from rfl] at ha
    rw [show (Orient.mk it.width it.height it.depth
      (it.width * it.height)).h = it.height from rfl] at hb
    rw [show (Orient.mk it.width it.height it.depth
      (it.width * it.height)).d = it.depth from rfl] at hc
    omega
  · rw [show (Orient.mk it.width it.depth it.height
      (it.width * it.depth)).w = it.width from rfl] at ha
    rw [show (Orient.mk it.width it.depth it.height
      (it.width * it.depth)).h = it.depth from rfl] at hb
    rw [show (Orient.mk it.width it.depth it.height
      (it.width * it.depth)).d = it.height from rfl] at hc
    omega
  · rw [show (Orient.mk it.height it.depth it.width
      (it.height * it.depth)).w = it.height from rfl] at ha
    rw [show (Orient.mk it.height it.depth it.width
      (it.height * it.depth)).h = it.depth from rfl] at hb
    rw [show (Orient.mk it.height it.depth it.width
      (it.height * it.depth)).d = it.width from rfl] at hc
    omega

theorem footprintOf_mkPlacement (cid itemId : String) (px py rw0 rh0 rd : Int) :
    footprintOf (mkPlacement cid itemId px py rw0 rh0 rd)
      = ⟨px, py, rw0, rh0⟩ := by
  show (⟨px, py, px + rw0 - px, py + rh0 - py⟩ : Rect) = ⟨px, py, rw0, rh0⟩
  rw [Rect.mk.injEq]
  exact ⟨rfl, rfl, by omega, by omega⟩

theorem entryInv_init (c : Container) : EntryInv (initFaceEntry c) := by
  show FaceGood c [⟨0, 0, c.width, c.height⟩] []
  refine ⟨?_, Or.inr ⟨rfl, rfl⟩, ?_, ?_, List.Pairwise.nil, ?_⟩
  · intro r hr
    rw [List.mem_singleton] at hr
    subst hr
    show (0 : Int) ≤ 0 ∧ (0 : Int) ≤ 0 ∧ 0 + c.width ≤ c.width ∧
      0 + c.height ≤ c.height
    omega
  · intro r _ p hp
    simp at hp
  · intro p hp
    simp at hp
  · intro p hp
    simp at hp

/-- Committing one placement (app.py lines 177-194) preserves the
per-container-face invariant. -/
theorem entry_commit_inv {cont : Container} {frs : List Rect}
    {ps : List Placement} {it : Item} {a b c : Int}
    (hE : FaceGood cont frs ps)
    (hit : 0 < it.width ∧ 0 < it.height ∧ 0 < it.depth)
    (hor : get_best_orientation it cont.depth = some (a, b, c))
    {fr : Rect} {px py sc : Int}
    (hfp : find_position_for_rect frs a b = some (fr, px, py, sc)) :
    FaceGood cont (update_free_rects frs ⟨px, py, a, b⟩)
      (ps ++ [mkPlacement cont.containerId it.itemId px py a b c]) := by
  obtain ⟨ha, hb, hc⟩ := get_best_orientation_pos hit hor
  obtain ⟨hmem, hw, hh, hpx, hpy⟩ :=
    find_position_some frs a b px py sc fr hfp
  subst hpx
  subst hpy
  have hdep : c ≤ cont.depth := (get_best_orientation_mem hor).1
  have hallpos : ∀ r ∈ frs, 0 < r.w ∧ 0 < r.h := by
    rcases hE.free_shape with hpos | ⟨hemp, hfr1⟩
    · exact hpos
    · intro r hr
      rw [hfr1, List.mem_singleton] at hr
      subst hr
      rw [hfr1, List.mem_singleton] at hmem
      rw [hmem] at hw hh
      have hW : (Rect.mk 0 0 cont.width cont.height).w = cont.width := rfl
      have hHc : (Rect.mk 0 0 cont.width cont.height).h = cont.height := rfl
      rw [hW] at hw
      rw [hHc] at hh
      show 0 < cont.width ∧ 0 < cont.height
      omega
  have hPfr : containedIn ⟨fr.x, fr.y, a, b⟩ fr := by
    show fr.x ≤ fr.x ∧ fr.y ≤ fr.y ∧ fr.x + a ≤ fr.x + fr.w ∧
      fr.y + b ≤ fr.y + fr.h
    omega
  have hPpos : (0 : Int) < (Rect.mk fr.x fr.y a b).w ∧
      (0 : Int) < (Rect.mk fr.x fr.y a b).h := ⟨ha, hb⟩
  have hfoot : footprintOf (mkPlacement cont.containerId it.itemId
      fr.x fr.y a b c) = ⟨fr.x, fr.y, a, b⟩ :=
    footprintOf_mkPlacement _ _ _ _ _ _ _
  refine ⟨?_, ?_, ?_, ?_, ?_, ?_⟩
  · intro q hq
    obtain ⟨r, hrm, hcq⟩ := update_containedIn hq
    have hif := hE.free_inface r hrm
    unfold containedIn at hcq
    exact ⟨by omega, by omega, by omega, by omega⟩
  · refine Or.inl ?_
    intro q hq
    exact update_pos hallpos hq
  · intro q hq p hp
    rw [List.mem_append] at hp
    rcases hp with hp | hp
    · obtain ⟨r, hrm, hcq⟩ := update_containedIn hq
      exact fun hov => hE.free_placed r hrm p hp (rOverlap_mono hcq hov)
    · rw [List.mem_singleton] at hp
      subst hp
      rw [hfoot]
      exact update_not_overlap hallpos hPpos hq
  · intro p hp
    rw [List.mem_append] at hp
    rcases hp with hp | hp
    · exact hE.placed_pos p hp
    · rw [List.mem_singleton] at hp
      subst hp
      rw [hfoot]
      exact hPpos
  · rw [List.pairwise_append]
    refine ⟨hE.placed_pair, List.pairwise_singleton _ _, ?_⟩
    intro p hp q hq
    rw [List.mem_singleton] at hq
    subst hq
    rw [hfoot]
    intro hov
    exact hE.free_placed fr hmem p hp
      (rOverlap_mono hPfr (rOverlap_symm hov))
  · intro p hp
    rw [List.mem_append] at hp
    rcases hp with hp | hp
    · exact hE.placed_ok p hp
    · rw [List.mem_singleton] at hp
      subst hp
      have hif := hE.free_inface fr hmem
      refine ⟨rfl, ?_⟩
      show (0 : Int) ≤ fr.x ∧ fr.x + a ≤ cont.width ∧
        (0 : Int) ≤ fr.y ∧ fr.y + b ≤ cont.height ∧ c ≤ cont.depth
      omega

theorem tryPlaceItem_inv {it : Item}
    (hit : 0 < it.width ∧ 0 < it.height ∧ 0 < it.depth) :
    ∀ {entries entries' : List FaceEntry},
      tryPlaceItem it entries = some entries' →
      (∀ e ∈ entries, EntryInv e) →
      (∀ e ∈ entries', EntryInv e) ∧
      entries'.map FaceEntry.container = entries.map FaceEntry.container := by
  intro entries
  induction entries with
  | nil =>
    intro entries' h
    exact absurd h (by simp [tryPlaceItem])
  | cons e es ih =>
    intro entries' h hE
    rw [tryPlaceItem] at h
    cases hor : get_best_orientation it e.container.depth with
    | none =>
      rw [hor] at h
      dsimp only at h
      cases htry : tryPlaceItem it es with
      | none => rw [htry] at h; exact absurd h (by simp)
      | some es' =>
        rw [htry] at h
        have h' : e :: es' = entries' := by simpa using h
        subst h'
        obtain ⟨h1, h2⟩ := ih htry
          (fun e2 he2 => hE e2 (List.mem_cons_of_mem e he2))
        refine ⟨?_, ?_⟩
        · intro e2 he2
          rcases List.mem_cons.mp he2 with rfl | he2'
          · exact hE e2 (List.mem_cons_self _ _)
          · exact h1 e2 he2'
        · rw [List.map_cons, List.map_cons, h2]
    | some o =>
      obtain ⟨a, b, c⟩ := o
      rw [hor] at h
      dsimp only at h
      cases hfp : find_position_for_rect e.free_rects a b with
      | none =>
        rw [hfp] at h
        dsimp only at h
        cases htry : tryPlaceItem it es with
        | none => rw [htry] at h; exact absurd h (by simp)
        | some es' =>
          rw [htry] at h
          have h' : e :: es' = entries' := by simpa using h
          subst h'
          obtain ⟨h1, h2⟩ := ih htry
            (fun e2 he2 => hE e2 (List.mem_cons_of_mem e he2))
          refine ⟨?_, ?_⟩
          · intro e2 he2
            rcases List.mem_cons.mp he2 with rfl | he2'
            · exact hE e2 (List.mem_cons_self _ _)
            · exact h1 e2 he2'
          · rw [List.map_cons, List.map_cons, h2]
      | some res =>
        obtain ⟨fr, px, py, sc⟩ := res
        rw [hfp] at h
        dsimp only at h
        rw [Option.some.injEq] at h
        subst h
        refine ⟨?_, ?_⟩
        · intro e2 he2
          rcases List.mem_cons.mp he2 with rfl | he2'
          · exact entry_commit_inv (hE e (List.mem_cons_self _ _)) hit hor hfp
          · exact hE e2 (List.mem_cons_of_mem _ he2')
        · rw [List.map_cons, List.map_cons]

theorem zoneItemStep_none {st : List FaceEntry × List Item} {it : Item}
    (h : tryPlaceItem it st.1 = none) :
    zoneItemStep st it = (st.1, st.2 ++ [it]) := by
  unfold zoneItemStep
  rw [h]

theorem zoneItemStep_some {st : List FaceEntry × List Item} {it : Item}
    {es' : List FaceEntry} (h : tryPlaceItem it st.1 = some es') :
    zoneItemStep st it = (es', st.2) := by
  unfold zoneItemStep
  rw [h]

theorem zoneItemStep_fold_inv :
    ∀ (items : List Item),
      (∀ it2 ∈ items, 0 < it2.width ∧ 0 < it2.height ∧ 0 < it2.depth) →
      ∀ (entries : List FaceEntry) (un : List Item),
      (∀ e ∈ entries, EntryInv e) →
      (∀ e ∈ (items.foldl zoneItemStep (entries, un)).1, EntryInv e) ∧
      (items.foldl zoneItemStep (entries, un)).1.map FaceEntry.container
        = entries.map FaceEntry.container := by
  intro items
  induction items with
  | nil => intro _ entries un hE; exact ⟨hE, rfl⟩
  | cons it rest ih =>
    intro hpos entries un hE
    rw [List.foldl_cons]
    have hposrest := fun it2 hit2 => hpos it2 (List.mem_cons_of_mem it hit2)
    cases htry : tryPlaceItem it entries with
    | none =>
      rw [zoneItemStep_none (show tryPlaceItem it (entries, un).1 = none
        from htry)]
      exact ih hposrest entries (un ++ [it]) hE
    | some es' =>
      rw [zoneItemStep_some (show tryPlaceItem it (entries, un).1 = some es'
        from htry)]
      obtain ⟨h1, h2⟩ := tryPlaceItem_inv
        (hpos it (List.mem_cons_self it rest)) htry hE
      obtain ⟨h3, h4⟩ := ih hposrest es' un h1
      exact ⟨h3, h4.trans h2⟩

theorem placeZoneItems_inv (items : List Item)
    (hpos : ∀ it2 ∈ items, 0 < it2.width ∧ 0 < it2.height ∧ 0 < it2.depth)
    (entries : List FaceEntry) (hE : ∀ e ∈ entries, EntryInv e) :
    (∀ e ∈ (placeZoneItems entries items).1, EntryInv e) ∧
    (placeZoneItems entries items).1.map FaceEntry.container
      = entries.map FaceEntry.container :=
  zoneItemStep_fold_inv items hpos entries [] hE

theorem insertByPriorityDesc_mem {x y : Item} :
    ∀ {l : List Item}, y ∈ insertByPriorityDesc x l → y = x ∨ y ∈ l := by
  intro l
  induction l with
  | nil => intro h; simp [insertByPriorityDesc] at h; exact Or.inl h
  | cons z zs ih =>
    intro h
    rw [insertByPriorityDesc] at h
    split_ifs at h
    · rcases List.mem_cons.mp h with rfl | h'
      · exact Or.inl rfl
      · exact Or.inr h'
    · rcases List.mem_cons.mp h with rfl | h'
      · exact Or.inr (List.mem_cons_self _ _)
      · rcases ih h' with h'' | h''
        · exact Or.inl h''
        · exact Or.inr (List.mem_cons_of_mem _ h'')

theorem sortItems_fold_mem {y : Item} :
    ∀ (l acc : List Item),
      y ∈ l.foldl (fun acc x => insertByPriorityDesc x acc) acc →
      y ∈ acc ∨ y ∈ l := by
  intro l
  induction l with
  | nil => intro acc h; exact Or.inl h
  | cons x xs ih =>
    intro acc h
    rw [List.foldl_cons] at h
    rcases ih (insertByPriorityDesc x acc) h with h' | h'
    · rcases insertByPriorityDesc_mem h' with rfl | h''
      · exact Or.inr (List.mem_cons_self _ _)
      · exact Or.inl h''
    · exact Or.inr (List.mem_cons_of_mem _ h')

theorem sortItems_mem {y : Item} {l : List Item}
    (h : y ∈ sortItemsByPriorityDesc l) : y ∈ l := by
  rcases sortItems_fold_mem l [] h with h' | h'
  · simp at h'
  · exact h'

theorem insertById_mem {x y : Container} :
    ∀ {l : List Container}, y ∈ insertById x l → y = x ∨ y ∈ l := by
  intro l
  induction l with
  | nil => intro h; simp [insertById] at h; exact Or.inl h
  | cons z zs ih =>
    intro h
    rw [insertById] at h
    split_ifs at h
    · rcases List.mem_cons.mp h with rfl | h'
      · exact Or.inl rfl
      · exact Or.inr h'
    · rcases List.mem_cons.mp h with rfl | h'
      · exact Or.inr (List.mem_cons_self _ _)
      · rcases ih h' with h'' | h''
        · exact Or.inl h''
        · exact Or.inr (List.mem_cons_of_mem _ h'')

theorem sortContainers_fold_mem {y : Container} :
    ∀ (l acc : List Container),
      y ∈ l.foldl (fun acc c => insertById c acc) acc →
      y ∈ acc ∨ y ∈ l := by
  intro l
  induction l with
  | nil => intro acc h; exact Or.inl h
  | cons x xs ih =>
    intro acc h
    rw [List.foldl_cons] at h
    rcases ih (insertById x acc) h with h' | h'
    · rcases insertById_mem h' with rfl | h''
      · exact Or.inr (List.mem_cons_self _ _)
      · exact Or.inl h''
    · exact Or.inr (List.mem_cons_of_mem _ h')

theorem zoneContainers_mem {cs : List Container} {z : String} {c : Container}
    (h : c ∈ zoneContainers cs z) : c ∈ cs ∧ c.zone = z := by
  unfold zoneContainers sortContainersById at h
  rcases sortContainers_fold_mem _ [] h with h' | h'
  · simp at h'
  · rw [List.mem_filter] at h'
    exact ⟨h'.1, by simpa using h'.2⟩

theorem addToZone_val_mem {z : String} {it : Item} {x : Item} :
    ∀ {acc : List (String × List Item)} {zi : String × List Item},
      zi ∈ addToZone z it acc → x ∈ zi.2 →
      (∃ zj ∈ acc, x ∈ zj.2) ∨ x = it := by
  intro acc
  induction acc with
  | nil =>
    intro zi hzi hx
    rw [show addToZone z it [] = [(z, [it])] from rfl,
      List.mem_singleton] at hzi
    subst hzi
    rw [show ((z, [it]) : String × List Item).2 = [it] from rfl,
      List.mem_singleton] at hx
    exact Or.inr hx
  | cons e rest ih =>
    intro zi hzi hx
    obtain ⟨z', li⟩ := e
    rw [addToZone] at hzi
    split_ifs at hzi with hz
    · rcases List.mem_cons.mp hzi with rfl | h'
      · rw [show ((z', li ++ [it]) : String × List Item).2 = li ++ [it]
          from rfl, List.mem_append] at hx
        rcases hx with hx | hx
        · exact Or.inl ⟨(z', li), List.mem_cons_self _ _, hx⟩
        · rw [List.mem_singleton] at hx
          exact Or.inr hx
      · exact Or.inl ⟨zi, List.mem_cons_of_mem _ h', hx⟩
    · rcases List.mem_cons.mp hzi with rfl | h'
      · exact Or.inl ⟨(z', li), List.mem_cons_self _ _, hx⟩
      · rcases ih h' hx with ⟨zj, hzj, hxj⟩ | h''
        · exact Or.inl ⟨zj, List.mem_cons_of_mem _ hzj, hxj⟩
        · exact Or.inr h''

theorem groupByZone_fold_val_mem {x : Item} :
    ∀ (items : List Item) (acc : List (String × List Item))
      {zi : String × List Item},
      zi ∈ items.foldl (fun acc it => addToZone it.preferredZone it acc) acc →
      x ∈ zi.2 → (∃ zj ∈ acc, x ∈ zj.2) ∨ x ∈ items := by
  intro items
  induction items with
  | nil => intro acc zi hzi hx; exact Or.inl ⟨zi, hzi, hx⟩
  | cons it rest ih =>
    intro acc zi hzi hx
    rw [List.foldl_cons] at hzi
    rcases ih _ hzi hx with ⟨zj, hzj, hxj⟩ | h'
    · rcases addToZone_val_mem hzj hxj with ⟨zk, hzk, hxk⟩ | h''
      · exact Or.inl ⟨zk, hzk, hxk⟩
      · exact Or.inr (h'' ▸ List.mem_cons_self _ _)
    · exact Or.inr (List.mem_cons_of_mem _ h')

theorem groupByZone_val_mem {items : List Item} {zi : String × List Item}
    {x : Item} (hzi : zi ∈ groupByZone items) (hx : x ∈ zi.2) : x ∈ items := by
  rcases groupByZone_fold_val_mem items [] hzi hx with ⟨zj, hzj, _⟩ | h'
  · simp at hzj
  · exact h'

theorem addToZone_keys (z : String) (it : Item) :
    ∀ acc : List (String × List Item),
      (addToZone z it acc).map Prod.fst
        = if z ∈ acc.map Prod.fst then acc.map Prod.fst
          else acc.map Prod.fst ++ [z] := by
  intro acc
  induction acc with
  | nil => simp [addToZone]
  | cons e rest ih =>
    obtain ⟨z', li⟩ := e
    rw [addToZone]
    by_cases hz : z' = z
    · rw [if_pos hz]
      subst hz
      simp
    · rw [if_neg hz, List.map_cons, List.map_cons, ih]
      by_cases hmem : z ∈ rest.map Prod.fst
      · rw [if_pos hmem, if_pos]
        simp only [List.map_cons, List.mem_cons]
        exact Or.inr hmem
      · rw [if_neg hmem, if_neg]
        · rfl
        · simp only [List.map_cons, List.mem_cons]
          push_neg
          exact ⟨fun h => hz h.symm, hmem⟩

theorem groupByZone_fold_keys_nodup :
    ∀ (items : List Item) (acc : List (String × List Item)),
      (acc.map Prod.fst).Nodup →
      ((items.foldl (fun acc it => addToZone it.preferredZone it acc)
        acc).map Prod.fst).Nodup := by
  intro items
  induction items with
  | nil => intro acc h; exact h
  | cons it rest ih =>
    intro acc h
    rw [List.foldl_cons]
    refine ih _ ?_
    rw [addToZone_keys]
    by_cases hmem : it.preferredZone ∈ acc.map Prod.fst
    · rw [if_pos hmem]; exact h
    · rw [if_neg hmem]
      rw [List.nodup_append]
      exact ⟨h, List.nodup_singleton _, by
        intro a ha hb
        rw [List.mem_singleton] at hb
        subst hb
        exact hmem ha⟩

theorem groupByZone_keys_nodup (items : List Item) :
    ((groupByZone items).map Prod.fst).Nodup :=
  groupByZone_fold_keys_nodup items [] (by simp)

theorem insertFaceEntry_mem {e x : FaceEntry} :
    ∀ {l : List FaceEntry}, x ∈ insertFaceEntry e l → x = e ∨ x ∈ l := by
  intro l
  induction l with
  | nil => intro h; simp [insertFaceEntry] at h; exact Or.inl h
  | cons f fs ih =>
    intro h
    rw [insertFaceEntry] at h
    split_ifs at h
    · rcases List.mem_cons.mp h with rfl | h'
      · exact Or.inl rfl
      · exact Or.inr (List.mem_cons_of_mem _ h')
    · rcases List.mem_cons.mp h with rfl | h'
      · exact Or.inr (List.mem_cons_self _ _)
      · rcases ih h' with h'' | h''
        · exact Or.inl h''
        · exact Or.inr (List.mem_cons_of_mem _ h'')

theorem buildFaceData_fold_mem {x : FaceEntry} :
    ∀ (cs : List Container) (acc : List FaceEntry),
      x ∈ cs.foldl (fun acc c => insertFaceEntry (initFaceEntry c) acc) acc →
      x ∈ acc ∨ ∃ c ∈ cs, x = initFaceEntry c := by
  intro cs
  induction cs with
  | nil => intro acc h; exact Or.inl h
  | cons c rest ih =>
    intro acc h
    rw [List.foldl_cons] at h
    rcases ih _ h with h' | ⟨c', hc', hx⟩
    · rcases insertFaceEntry_mem h' with h'' | h''
      · exact Or.inr ⟨c, List.mem_cons_self _ _, h''⟩
      · exact Or.inl h''
    · exact Or.inr ⟨c', List.mem_cons_of_mem _ hc', hx⟩

theorem buildFaceData_mem {cs : List Container} {x : FaceEntry}
    (h : x ∈ buildFaceData cs) : ∃ c ∈ cs, x = initFaceEntry c := by
  rcases buildFaceData_fold_mem cs [] h with h' | h'
  · simp at h'
  · exact h'

theorem insertFaceEntry_keys (e : FaceEntry) :
    ∀ l : List FaceEntry,
      (insertFaceEntry e l).map (fun f => f.container.containerId)
        = if e.container.containerId
            ∈ l.map (fun f => f.container.containerId)
          then l.map (fun f => f.container.containerId)
          else l.map (fun f => f.container.containerId)
            ++ [e.container.containerId] := by
  intro l
  induction l with
  | nil => simp [insertFaceEntry]
  | cons f fs ih =>
    rw [insertFaceEntry]
    by_cases hk : f.container.containerId = e.container.containerId
    · rw [if_pos hk]
      rw [List.map_cons, List.map_cons]
      rw [if_pos]
      · rw [hk]
      · rw [List.mem_cons]
        exact Or.inl hk.symm
    · rw [if_neg hk, List.map_cons, List.map_cons, ih]
      by_cases hmem : e.container.containerId
          ∈ fs.map (fun f => f.container.containerId)
      · rw [if_pos hmem, if_pos]
        rw [List.mem_cons]
        exact Or.inr hmem
      · rw [if_neg hmem, if_neg]
        · rfl
        · rw [List.mem_cons]
          push_neg
          exact ⟨fun h => hk h.symm, hmem⟩

theorem buildFaceData_fold_keys_nodup :
    ∀ (cs : List Container) (acc : List FaceEntry),
      (acc.map (fun f => f.container.containerId)).Nodup →
      ((cs.foldl (fun acc c => insertFaceEntry (initFaceEntry c) acc)
        acc).map (fun f => f.container.containerId)).Nodup := by
  intro cs
  induction cs with
  | nil => intro acc h; exact h
  | cons c rest ih =>
    intro acc h
    rw [List.foldl_cons]
    refine ih _ ?_
    rw [insertFaceEntry_keys]
    by_cases hmem : (initFaceEntry c).container.containerId
        ∈ acc.map (fun f => f.container.containerId)
    · rw [if_pos hmem]; exact h
    · rw [if_neg hmem]
      rw [List.nodup_append]
      exact ⟨h, List.nodup_singleton _, by
        intro a ha hb
        rw [List.mem_singleton] at hb
        subst hb
        exact hmem ha⟩

theorem buildFaceData_keys_nodup (cs : List Container) :
    ((buildFaceData cs).map (fun f => f.container.containerId)).Nodup :=
  buildFaceData_fold_keys_nodup cs [] (by simp)

theorem entries_flat (entries : List FaceEntry)
    (hE : ∀ e ∈ entries, EntryInv e)
    (hkeys : entries.Pairwise (fun e1 e2 =>
      e1.container.containerId ≠ e2.container.containerId)) :
    (entries.flatMap FaceEntry.placements).Pairwise
      (fun p q => p.containerId = q.containerId →
        ¬ rOverlap (footprintOf p) (footprintOf q)) ∧
    ∀ p ∈ entries.flatMap FaceEntry.placements, ∃ e ∈ entries,
      p.containerId = e.container.containerId ∧
      placementBounds p e.container := by
  induction entries with
  | nil => exact ⟨List.Pairwise.nil, by simp⟩
  | cons e es ih =>
    have hEe : FaceGood e.container e.free_rects e.placements :=
      hE e (List.mem_cons_self _ _)
    obtain ⟨ih1, ih2⟩ := ih (fun e2 he2 => hE e2 (List.mem_cons_of_mem _ he2))
      (List.pairwise_cons.mp hkeys).2
    have hne := (List.pairwise_cons.mp hkeys).1
    rw [List.flatMap_cons]
    constructor
    · rw [List.pairwise_append]
      refine ⟨?_, ih1, ?_⟩
      · refine List.Pairwise.imp ?_ hEe.placed_pair
        intro a b h x
        exact h
      intro p hp q hq hcid
      obtain ⟨e', he', hqe', -⟩ := ih2 q hq
      have hpcid := (hEe.placed_ok p hp).1
      exact absurd (by rw [← hpcid, hcid, hqe']) (hne e' he')
    · intro p hp
      rw [List.mem_append] at hp
      rcases hp with hp | hp
      · exact ⟨e, List.mem_cons_self _ _, (hEe.placed_ok p hp).1,
          (hEe.placed_ok p hp).2⟩
      · obtain ⟨e', he', h1, h2⟩ := ih2 p hp
        exact ⟨e', List.mem_cons_of_mem _ he', h1, h2⟩

/-- The placements one zone pass commits: pairwise non-overlapping within
each container, each within the bounds of a container of that zone. -/
theorem zone_placements_ok (containers : List Container) (z : String)
    (items_z : List Item)
    (hpos : ∀ it2 ∈ items_z,
      0 < it2.width ∧ 0 < it2.height ∧ 0 < it2.depth) :
    ((placeZoneItems (buildFaceData (zoneContainers containers z))
        (sortItemsByPriorityDesc items_z)).1.flatMap
        FaceEntry.placements).Pairwise
      (fun p q => p.containerId = q.containerId →
        ¬ rOverlap (footprintOf p) (footprintOf q)) ∧
    ∀ p ∈ (placeZoneItems (buildFaceData (zoneContainers containers z))
        (sortItemsByPriorityDesc items_z)).1.flatMap FaceEntry.placements,
      ∃ c ∈ containers, c.zone = z ∧ p.containerId = c.containerId ∧
        placementBounds p c := by
  have hE0 : ∀ e ∈ buildFaceData (zoneContainers containers z), EntryInv e := by
    intro e he
    obtain ⟨c, -, rfl⟩ := buildFaceData_mem he
    exact entryInv_init c
  have hsortpos : ∀ it2 ∈ sortItemsByPriorityDesc items_z,
      0 < it2.width ∧ 0 < it2.height ∧ 0 < it2.depth :=
    fun it2 hit2 => hpos it2 (sortItems_mem hit2)
  obtain ⟨hE, hmap⟩ := placeZoneItems_inv _ hsortpos _ hE0
  have hkeys :
      ((placeZoneItems (buildFaceData (zoneContainers containers z))
        (sortItemsByPriorityDesc items_z)).1.map
        (fun f => f.container.containerId)).Nodup := by
    have h1 : (placeZoneItems (buildFaceData (zoneContainers containers z))
        (sortItemsByPriorityDesc items_z)).1.map
        (fun f => f.container.containerId)
        = ((placeZoneItems (buildFaceData (zoneContainers containers z))
            (sortItemsByPriorityDesc items_z)).1.map
            FaceEntry.container).map (fun c => c.containerId) := by
      rw [List.map_map]
      rfl
    rw [h1, hmap, List.map_map]
    exact buildFaceData_keys_nodup _
  have hkeys2 : (placeZoneItems (buildFaceData (zoneContainers containers z))
      (sortItemsByPriorityDesc items_z)).1.Pairwise
      (fun e1 e2 => e1.container.containerId ≠ e2.container.containerId) := by
    have hkeys' := hkeys
    rw [List.Nodup] at hkeys'
    exact List.pairwise_map.mp hkeys'
  obtain ⟨h1, h2⟩ := entries_flat _ hE hkeys2
  refine ⟨h1, ?_⟩
  intro p hp
  obtain ⟨e, he, hcid, hbounds⟩ := h2 p hp
  have hec : e.container ∈ (placeZoneItems
      (buildFaceData (zoneContainers containers z))
      (sortItemsByPriorityDesc items_z)).1.map FaceEntry.container :=
    List.mem_map_of_mem _ he
  rw [hmap] at hec
  obtain ⟨e0, he0, hee⟩ := List.mem_map.mp hec
  obtain ⟨c, hc, rfl⟩ := buildFaceData_mem he0
  have hcz := zoneContainers_mem hc
  have hcc : e.container = c := by
    rw [← hee]
    rfl
  rw [hcc] at hcid hbounds
  exact ⟨c, hcz.1, hcz.2, hcid, hbounds⟩

theorem zoneStep_fst (containers : List Container)
    (acc : List Placement × List Item) (zi : String × List Item) :
    (zoneStep containers acc zi).1 = acc.1 ++
      (placeZoneItems (buildFaceData (zoneContainers containers zi.1))
        (sortItemsByPriorityDesc zi.2)).1.flatMap FaceEntry.placements := rfl

/-- Pushing the per-zone guarantee through the zone fold of
`place_items_optimally`. -/
theorem zoneStep_fold_ok (containers : List Container)
    (hcont : (containers.map Container.containerId).Nodup) :
    ∀ zones : List (String × List Item),
      zones.Pairwise (fun a b => a.1 ≠ b.1) →
      (∀ zi ∈ zones, ∀ x ∈ zi.2, 0 < x.width ∧ 0 < x.height ∧ 0 < x.depth) →
      ∀ acc : List Placement × List Item,
      acc.1.Pairwise (fun p q => p.containerId = q.containerId →
        ¬ rOverlap (footprintOf p) (footprintOf q)) →
      (∀ p ∈ acc.1, ∃ c ∈ containers, p.containerId = c.containerId ∧
        placementBounds p c ∧ c.zone ∉ zones.map Prod.fst) →
      (zones.foldl (zoneStep containers) acc).1.Pairwise
        (fun p q => p.containerId = q.containerId →
          ¬ rOverlap (footprintOf p) (footprintOf q)) ∧
      ∀ p ∈ (zones.foldl (zoneStep containers) acc).1,
        ∃ c ∈ containers, p.containerId = c.containerId ∧
          placementBounds p c := by
  intro zones
  induction zones with
  | nil =>
    intro _ _ acc hpair hbound
    refine ⟨hpair, ?_⟩
    intro p hp
    obtain ⟨c, hc, h1, h2, -⟩ := hbound p hp
    exact ⟨c, hc, h1, h2⟩
  | cons zi zs ih =>
    intro hzkeys hzpos acc hpair hbound
    rw [List.foldl_cons]
    obtain ⟨hzp1, hzp2⟩ := zone_placements_ok containers zi.1 zi.2
      (hzpos zi (List.mem_cons_self _ _))
    have hzhead := (List.pairwise_cons.mp hzkeys).1
    refine ih (List.pairwise_cons.mp hzkeys).2
      (fun z2 hz2 => hzpos z2 (List.mem_cons_of_mem _ hz2))
      (zoneStep containers acc zi) ?_ ?_
    · rw [zoneStep_fst, List.pairwise_append]
      refine ⟨hpair, hzp1, ?_⟩
      intro p hp q hq hcid
      obtain ⟨cp, hcp, hcidp, -, hzp⟩ := hbound p hp
      obtain ⟨cq, hcq, hzq, hcidq, -⟩ := hzp2 q hq
      have hcc : cp = cq := by
        apply List.inj_on_of_nodup_map hcont hcp hcq
        rw [← hcidp, hcid]
        exact hcidq
      exfalso
      apply hzp
      rw [hcc, hzq, List.map_cons]
      exact List.mem_cons_self _ _
    · intro p hp
      rw [zoneStep_fst, List.mem_append] at hp
      rcases hp with hp | hp
      · obtain ⟨c, hc, h1, h2, h3⟩ := hbound p hp
        refine ⟨c, hc, h1, h2, ?_⟩
        intro hmem
        apply h3
        rw [List.map_cons]
        exact List.mem_cons_of_mem _ hmem
      · obtain ⟨c, hc, hzq, hcid, hb⟩ := hzp2 p hp
        refine ⟨c, hc, hcid, hb, ?_⟩
        rw [hzq]
        intro hmem
        obtain ⟨b, hb2, hb3⟩ := List.mem_map.mp hmem
        exact hzhead b hb2 hb3.symm

/-- Claim C9: within one allocation batch, the placements
`place_items_optimally` commits to any single container have pairwise
disjoint footprints in the (width, height) plane, and each placement's box
lies within its container's bounds (width span inside `[0, width]`, height
span inside `[0, height]`, depth end at most the container depth) — under
the implicit premises that item dimensions are positive and container ids
are unique. -/
theorem claim_C9_allocator_geometry (items : List Item)
    (containers : List Container)
    (hitems : ∀ it2 ∈ items, 0 < it2.width ∧ 0 < it2.height ∧ 0 < it2.depth)
    (hcont : (containers.map Container.containerId).Nodup) :
    (place_items_optimally items containers).1.Pairwise
      (fun p q => p.containerId = q.containerId →
        ¬ rOverlap (footprintOf p) (footprintOf q)) ∧
    ∀ p ∈ (place_items_optimally items containers).1,
      ∀ c ∈ containers, c.containerId = p.containerId →
        placementBounds p c := by
  have hzkeys : (groupByZone items).Pairwise (fun a b => a.1 ≠ b.1) := by
    have h := groupByZone_keys_nodup items
    rw [List.Nodup] at h
    exact List.pairwise_map.mp h
  have hzpos : ∀ zi ∈ groupByZone items, ∀ x ∈ zi.2,
      0 < x.width ∧ 0 < x.height ∧ 0 < x.depth :=
    fun zi hzi x hx => hitems x (groupByZone_val_mem hzi hx)
  obtain ⟨h1, h2⟩ := zoneStep_fold_ok containers hcont (groupByZone items)
    hzkeys hzpos ([], []) List.Pairwise.nil (by intro p hp; simp at hp)
  refine ⟨h1, ?_⟩
  intro p hp c hc hcid
  obtain ⟨c', hc', hcid', hb⟩ := h2 p hp
  have hcc : c = c' := by
    apply List.inj_on_of_nodup_map hcont hc hc'
    rw [hcid, hcid']
  rw [hcc]
  exact hb

theorem claim_C9_witness :
    ((∀ it2 ∈ [exItemA, exItemB],
        0 < it2.width ∧ 0 < it2.height ∧ 0 < it2.depth) ∧
      (([exContainerC] : List Container).map Container.containerId).Nodup) ∧
    ((place_items_optimally [exItemA, exItemB] [exContainerC]).1.Pairwise
      (fun p q => p.containerId = q.containerId →
        ¬ rOverlap (footprintOf p) (footprintOf q)) ∧
    ∀ p ∈ (place_items_optimally [exItemA, exItemB] [exContainerC]).1,
      ∀ c ∈ ([exContainerC] : List Container),
        c.containerId = p.containerId → placementBounds p c) :=
  ⟨⟨by decide, by decide⟩,
   claim_C9_allocator_geometry [exItemA, exItemB] [exContainerC]
     (by decide) (by decide)⟩

/-! ## Claim C10: missing priorities default to 0 -/

theorem insertDesc_normalize (x : Item) :
    ∀ l : List Item,
      insertByPriorityDesc (normalizePriority x) (l.map normalizePriority)
        = (insertByPriorityDesc x l).map normalizePriority := by
  intro l
  induction l with
  | nil => rfl
  | cons y ys ih =>
    rw [List.map_cons, insertByPriorityDesc, insertByPriorityDesc]
    rw [show priorityOf (normalizePriority y) = priorityOf y from rfl,
      show priorityOf (normalizePriority x) = priorityOf x from rfl]
    by_cases h : priorityOf y < priorityOf x
    · rw [if_pos h, if_pos h, List.map_cons, List.map_cons]
    · rw [if_neg h, if_neg h, List.map_cons, ih]

theorem sortItems_fold_normalize :
    ∀ (l : List Item) (acc : List Item),
      (l.map normalizePriority).foldl (fun acc x => insertByPriorityDesc x acc)
          (acc.map normalizePriority)
        = (l.foldl (fun acc x => insertByPriorityDesc x acc) acc).map
            normalizePriority := by
  intro l
  induction l with
  | nil => intro acc; rfl
  | cons x xs ih =>
    intro acc
    rw [List.map_cons, List.foldl_cons, List.foldl_cons,
      insertDesc_normalize x acc]
    exact ih (insertByPriorityDesc x acc)

theorem sortItems_normalize (l : List Item) :
    sortItemsByPriorityDesc (l.map normalizePriority)
      = (sortItemsByPriorityDesc l).map normalizePriority := by
  have := sortItems_fold_normalize l []
  simpa [sortItemsByPriorityDesc] using this

theorem addToZone_normalize (z : String) (it : Item) :
    ∀ acc : List (String × List Item),
      addToZone z (normalizePriority it)
          (acc.map (fun zi => (zi.1, zi.2.map normalizePriority)))
        = (addToZone z it acc).map
            (fun zi => (zi.1, zi.2.map normalizePriority)) := by
  intro acc
  induction acc with
  | nil => rfl
  | cons e rest ih =>
    obtain ⟨z', li⟩ := e
    rw [List.map_cons]
    dsimp only
    rw [addToZone, addToZone]
    by_cases h : z' = z
    · rw [if_pos h, if_pos h, List.map_cons]
      dsimp only
      rw [List.map_append]
      rfl
    · rw [if_neg h, if_neg h, List.map_cons, ih]

theorem groupByZone_fold_normalize :
    ∀ (items : List Item) (acc : List (String × List Item)),
      (items.map normalizePriority).foldl
          (fun acc it => addToZone it.preferredZone it acc)
          (acc.map (fun zi => (zi.1, zi.2.map normalizePriority)))
        = ((items.foldl (fun acc it => addToZone it.preferredZone it acc) acc).map
            (fun zi => (zi.1, zi.2.map normalizePriority))) := by
  intro items
  induction items with
  | nil => intro acc; rfl
  | cons it rest ih =>
    intro acc
    rw [List.map_cons, List.foldl_cons, List.foldl_cons]
    rw [show (normalizePriority it).preferredZone = it.preferredZone from rfl]
    rw [addToZone_normalize it.preferredZone it acc]
    exact ih (addToZone it.preferredZone it acc)

theorem groupByZone_normalize (items : List Item) :
    groupByZone (items.map normalizePriority)
      = (groupByZone items).map (fun zi => (zi.1, zi.2.map normalizePriority)) := by
  have := groupByZone_fold_normalize items []
  simpa [groupByZone] using this

theorem tryPlaceItem_normalize (it : Item) :
    ∀ entries : List FaceEntry,
      tryPlaceItem (normalizePriority it) entries = tryPlaceItem it entries := by
  intro entries
  induction entries with
  | nil => rfl
  | cons e es ih =>
    rw [tryPlaceItem, tryPlaceItem]
    rw [show get_best_orientation (normalizePriority it) e.container.depth
      = get_best_orientation it e.container.depth from rfl]
    cases hor : get_best_orientation it e.container.depth with
    | none => rw [ih]
    | some o =>
      obtain ⟨a, b, c⟩ := o
      dsimp only
      cases hfp : find_position_for_rect e.free_rects a b with
      | none => rw [ih]
      | some res => rfl

theorem zoneItemStep_fold_normalize :
    ∀ (items : List Item) (entries : List FaceEntry) (un : List Item),
      (items.map normalizePriority).foldl zoneItemStep
          (entries, un.map normalizePriority)
        = ((items.foldl zoneItemStep (entries, un)).1,
           (items.foldl zoneItemStep (entries, un)).2.map normalizePriority) := by
  intro items
  induction items with
  | nil => intro entries un; rfl
  | cons it rest ih =>
    intro entries un
    rw [List.map_cons, List.foldl_cons, List.foldl_cons]
    rw [zoneItemStep, zoneItemStep]
    dsimp only
    rw [tryPlaceItem_normalize it entries]
    cases htry : tryPlaceItem it entries with
    | none =>
      dsimp only
      have := ih entries (un ++ [it])
      rw [show (un ++ [it]).map normalizePriority
        = un.map normalizePriority ++ [normalizePriority it] by simp] at this
      exact this
    | some entries' =>
      dsimp only
      exact ih entries' un

theorem placeZoneItems_normalize (entries : List FaceEntry) (items : List Item) :
    placeZoneItems entries (items.map normalizePriority)
      = ((placeZoneItems entries items).1,
         (placeZoneItems entries items).2.map normalizePriority) := by
  have := zoneItemStep_fold_normalize items entries []
  simpa [placeZoneItems] using this

theorem zoneStep_fold_normalize (containers : List Container) :
    ∀ (zones : List (String × List Item)) (acc1 : List Placement)
      (acc2 : List Item),
      (zones.map (fun zi => (zi.1, zi.2.map normalizePriority))).foldl
          (zoneStep containers) (acc1, acc2.map normalizePriority)
        = ((zones.foldl (zoneStep containers) (acc1, acc2)).1,
           (zones.foldl (zoneStep containers) (acc1, acc2)).2.map
             normalizePriority) := by
  intro zones
  induction zones with
  | nil => intro acc1 acc2; rfl
  | cons z zs ih =>
    intro acc1 acc2
    rw [List.map_cons, List.foldl_cons, List.foldl_cons]
    rw [zoneStep, zoneStep]
    dsimp only
    rw [sortItems_normalize z.2,
      placeZoneItems_normalize (buildFaceData (zoneContainers containers z.1))
        (sortItemsByPriorityDesc z.2)]
    dsimp only
    rw [show acc2.map normalizePriority ++
        ((placeZoneItems (buildFaceData (zoneContainers containers z.1))
          (sortItemsByPriorityDesc z.2)).2.map normalizePriority)
      = (acc2 ++ (placeZoneItems (buildFaceData (zoneContainers containers z.1))
          (sortItemsByPriorityDesc z.2)).2).map normalizePriority by
        simp]
    exact ih _ _

/-- C10: the allocator accepts items without a priority field — the whole
allocation is unchanged when every item's priority is replaced by
`some (priority.getD 0)` (so an absent priority behaves exactly as
priority 0, and in particular `normalizePriority` sends a priority-less
item to the same item with priority 0), the placements coincide, and the
unplaced list is the normalized unplaced list. -/
theorem claim_C10_missing_priority (items : List Item)
    (containers : List Container) :
    (place_items_optimally (items.map normalizePriority) containers).1
        = (place_items_optimally items containers).1 ∧
    (place_items_optimally (items.map normalizePriority) containers).2
        = (place_items_optimally items containers).2.map normalizePriority ∧
    ∀ it : Item, it.priority = none →
      normalizePriority it = { it with priority := some 0 } := by
  have hmain :
      place_items_optimally (items.map normalizePriority) containers
        = ((place_items_optimally items containers).1,
           (place_items_optimally items containers).2.map normalizePriority) := by
    unfold place_items_optimally
    rw [groupByZone_normalize]
    exact zoneStep_fold_normalize containers (groupByZone items) [] []
  refine ⟨by rw [hmain], by rw [hmain], ?_⟩
  intro it hit
  rw [normalizePriority, hit]
  rfl

/-- Witness for C10: a priority-less item is allocated exactly as a
priority-0 item. -/
theorem claim_C10_witness :
    (place_items_optimally
        ([⟨"P", 1, 1, 1, "Z", none⟩].map normalizePriority) [exContainerC]).1
      = (place_items_optimally [⟨"P", 1, 1, 1, "Z", none⟩] [exContainerC]).1 ∧
    normalizePriority ⟨"P", 1, 1, 1, "Z", none⟩ = ⟨"P", 1, 1, 1, "Z", some 0⟩ :=
  ⟨(claim_C10_missing_priority [⟨"P", 1, 1, 1, "Z", none⟩] [exContainerC]).1,
   (claim_C10_missing_priority [⟨"P", 1, 1, 1, "Z", none⟩] [exContainerC]).2.2
     ⟨"P", 1, 1, 1, "Z", none⟩ rfl⟩

end SpaceCadets
